import Mathlib

/-!
Shallow embedding of the PortableTab table store
(`src/PortableTab/capnp_table.py` and `src/PortableTab/capnp_manager.py`)
and proofs about its paged binary store, mmap cache and trie index.

Records are modelled as association lists of named field values (the
record struct declared by the Cap'n Proto schema); a serialized page file
holds the list of records of that page (the codec round-trips, so a page
file is identified with the record list it encodes).  Filesystem state is
modelled explicitly; fallible operations return `Option`/`Except`.
-/

namespace PortableTab

/-! ### Values, records, pages -/

/-- Model of a Cap'n Proto field value (integers and text suffice for the
properties studied here; nothing depends on the exact set of scalar kinds). -/
inductive Value where
  | vInt (n : Int)
  | vText (s : String)
deriving DecidableEq

/-- A record: the named fields of the record struct, in declaration order. -/
abbrev Record := List (String × Value)

/-- Python's `str()` applied to an attribute value, as used by `kvgen`
inside `create_trie_on` (text fields stringify to themselves, integers to
their decimal form). -/
def strOf : Value → String
  | .vInt n => toString n
  | .vText s => s

/-- `CapnpManager.PAGE_SIZE`: records per page file. -/
def PAGE_SIZE : Nat := 500000

/-- On-disk state of one table: the descriptor's `count` (config.json) and,
for every page number, the record list encoded by `page_{k:03d}.bin`
(a page file that was never written is read as the empty list). -/
structure TableState where
  count : Nat
  pages : Nat → List Record

/-- The table right after `create`: descriptor count 0, no page files. -/
def initialState : TableState := ⟨0, fun _ => []⟩

/-- `CapnpTable._write_page`: serialize `records[0:PAGE_SIZE]` and replace
the page file `page_{page:03d}.bin` with it. -/
def writePage (pages : Nat → List Record) (page : Nat) (recs : List Record) :
    Nat → List Record :=
  fun k => if k = page then recs.take PAGE_SIZE else pages k

/-- `CapnpTable.get_record(pos)` at the page-file level: view the frame of
page `pos / PAGE_SIZE` and take the record at slot `pos % PAGE_SIZE`
(`none` models the out-of-range `IndexError`). -/
def getRecord? (s : TableState) (pos : Nat) : Option Record :=
  (s.pages (pos / PAGE_SIZE))[pos % PAGE_SIZE]?

/-- `CapnpTable.retrieve_records(limit, offset)`: the records at positions
`pos, pos+1, ..., pos+n-1`, each read from the page file holding it
(same indexing as `get_record`); fails if any position is absent. -/
def readRange (s : TableState) : Nat → Nat → Option (List Record)
  | _, 0 => some []
  | pos, n + 1 =>
    match getRecord? s pos, readRange s (pos + 1) n with
    | some r, some rest => some (r :: rest)
    | _, _ => none

/-! ### Filesystem write events

`append_records` is instrumented with the list of filesystem write
operations it performs, in order, so that the write discipline (direct
in-place writes; descriptor last) can be stated. -/

/-- A filesystem write operation performed by the table manager.
`renameFile` never occurs in the source's write path; it is included so
that the temp-and-rename discipline claimed by the spec can be stated. -/
inductive FsOp where
  | writePageFile (page : Nat) (recs : List Record)
  | writeConfigFile (count : Nat)
  | renameFile (src dst : String)
deriving DecidableEq

/-- The descriptor count after executing a list of write operations on a
table whose config currently holds `c0`. -/
def replayCount (c0 : Nat) (ops : List FsOp) : Nat :=
  ops.foldl (fun c op => match op with | .writeConfigFile n => n | _ => c) c0

/-- The main loop of `CapnpTable.append_records`: push each incoming record
into the buffer, flush a full page whenever the buffer reaches `PAGE_SIZE`,
and flush the remaining (partial) buffer at the end.  Returns the page
files, the final `cur_pos` and the write operations performed. -/
def appendLoop : List Record → List Record → Nat → Nat → (Nat → List Record) →
    List FsOp → (Nat → List Record) × Nat × List FsOp
  | [], buffer, curPos, page, pages, tr =>
    if buffer.length > 0 then
      (writePage pages page buffer, curPos,
        tr ++ [.writePageFile page (buffer.take PAGE_SIZE)])
    else
      (pages, curPos, tr)
  | r :: rest, buffer, curPos, page, pages, tr =>
    let buffer' := buffer ++ [r]
    if buffer'.length = PAGE_SIZE then
      appendLoop rest [] (curPos + 1) (page + 1) (writePage pages page buffer')
        (tr ++ [.writePageFile page (buffer'.take PAGE_SIZE)])
    else
      appendLoop rest buffer' (curPos + 1) page pages tr

/-- `CapnpTable.append_records(records)`: read the partial tail page into
the buffer, run the append loop, then write the descriptor with the new
count (`set_config`).  Returns the new table state together with the
write operations performed, or `none` if reading the tail page fails. -/
def append_records (s : TableState) (records : List Record) :
    Option (TableState × List FsOp) :=
  let curPos := s.count
  let page := curPos / PAGE_SIZE
  let pos := page * PAGE_SIZE
  match (if curPos - pos > 0 then readRange s pos (curPos - pos) else some []) with
  | none => none
  | some buffer =>
    let res := appendLoop records buffer curPos page s.pages []
    some (⟨res.2.1, res.1⟩, res.2.2 ++ [.writeConfigFile res.2.1])

/-- A sequence of `append_records` calls on the same table. -/
def appendAll (s : TableState) : List (List Record) → Option TableState
  | [] => some s
  | b :: rest =>
    match append_records s b with
    | none => none
    | some out => appendAll out.1 rest

/-! ### The mmap page cache (`CapnpManager.get_page_mmap`)

The cache is an ordered association list (Python `OrderedDict`), oldest
entry first; `mm` values are whatever an open mapping yields (`openR`). -/

section Cache

variable {K M : Type} [DecidableEq K]

/-- Association-list lookup (Python `dict` membership / indexing). -/
def lookupCache (c : List (K × M)) (k : K) : Option M :=
  (c.find? (fun e => e.1 = k)).map (fun e => e.2)

/-- `CapnpManager.get_page_mmap(page_path)`: on a hit, move the entry to
the most-recent end and return its mapping; on a miss, open a new mapping
(`openR`), insert it as most-recent and, if the cache now exceeds 10
entries, evict the least-recently-used entry (`popitem(0)`). -/
def get_page_mmap (openR : K → M) (c : List (K × M)) (p : K) :
    M × List (K × M) :=
  match lookupCache c p with
  | some m => (m, c.filter (fun e => e.1 ≠ p) ++ [(p, m)])
  | none =>
    let m := openR p
    let c1 := c ++ [(p, m)]
    (m, if c1.length > 10 then c1.drop 1 else c1)

end Cache

/-! ### The table manager with its cache (for `get_record` / `update_records`) -/

/-- In-process manager state: the on-disk pages and descriptor count plus
the mmap page cache.  Cache keys are page numbers (page paths are in
bijection with page numbers); a cached value is the content the mapping
exposes, fixed when the `PageReader` was opened. -/
structure ManagerState where
  count : Nat
  pages : Nat → List Record
  cache : List (Nat × List Record)

/-- `CapnpTable.get_record(pos)` through the mmap cache: acquire the mmap
of the page via `get_page_mmap` (opening from disk on a miss) and return
the record at slot `pos % PAGE_SIZE`. -/
def get_record_m (s : ManagerState) (pos : Nat) : Option Record × ManagerState :=
  let res := get_page_mmap (fun k => s.pages k) s.cache (pos / PAGE_SIZE)
  (res.1[pos % PAGE_SIZE]?, { s with cache := res.2 })

/-! ### Point update (`CapnpTable.update_records`) -/

/-- A field patch: the dict of field name / new value pairs for one record. -/
abbrev Patch := List (String × Value)

/-- `setattr(record, key, value)` on a record builder: replace the value of
the named field (fields of a struct are unique). -/
def setField (r : Record) (f : String) (v : Value) : Record :=
  r.map (fun p => if p.1 = f then (p.1, v) else p)

/-- Apply each field assignment of a patch in order. -/
def applyPatch (r : Record) (patch : Patch) : Record :=
  patch.foldl (fun acc kv => setField acc kv.1 kv.2) r

/-- `getattr(record, f)` (also the reads behind `record.to_dict()`): the
value of the first field named `f`, if any (struct fields are unique). -/
def lookupField (r : Record) (f : String) : Option Value :=
  match r with
  | [] => none
  | p :: rest => if p.1 = f then some p.2 else lookupField rest f

/-- Insertion into a key-sorted list of patches (helper for
`dict(sorted(updates.items()))`). -/
def insertByPos (x : Nat × Patch) : List (Nat × Patch) → List (Nat × Patch)
  | [] => [x]
  | y :: ys => if x.1 ≤ y.1 then x :: y :: ys else y :: insertByPos x ys

/-- `dict(sorted(updates.items()))`: the patches in ascending key order. -/
def sortByPos (l : List (Nat × Patch)) : List (Nat × Patch) :=
  l.foldr insertByPos []

/-- The loop of `CapnpTable.update_records`: walk the sorted patches; when
the target page changes, flush the page being edited (if any) and read the
new page from disk into builders; apply each patch with `setattr`; flush
the last page at the end. -/
def updateLoop : List (Nat × Patch) → Option Nat → List Record →
    (Nat → List Record) → (Nat → List Record)
  | [], none, _, pages => pages
  | [], some cp, records, pages => writePage pages cp records
  | (pos, nv) :: rest, cur, records, pages =>
    let page := pos / PAGE_SIZE
    if cur = some page then
      updateLoop rest cur
        (records.set (pos % PAGE_SIZE)
          (applyPatch (records.getD (pos % PAGE_SIZE) []) nv)) pages
    else
      let pages' := match cur with
        | none => pages
        | some cp => writePage pages cp records
      let recs0 := pages' page
      updateLoop rest (some page)
        (recs0.set (pos % PAGE_SIZE)
          (applyPatch (recs0.getD (pos % PAGE_SIZE) []) nv)) pages'

/-- `CapnpTable.update_records(updates)`: sort the patches by position and
run the update loop.  Only page files are touched (the descriptor and the
mmap cache are not). -/
def update_records (pages : Nat → List Record) (updates : List (Nat × Patch)) :
    Nat → List Record :=
  updateLoop (sortByPos updates) none [] pages

/-- `update_records` at the manager level: page files are rewritten; the
descriptor count and the mmap cache are left untouched (the method never
accesses `self.page_cache`). -/
def update_records_m (s : ManagerState) (updates : List (Nat × Patch)) :
    ManagerState :=
  { s with pages := update_records s.pages updates }

/-- Specification helper (not source code): the effect of a single patch on
the page files — replace slot `u.1 % PAGE_SIZE` of page `u.1 / PAGE_SIZE`
by the patched record. -/
def applyOne (pg : Nat → List Record) (u : Nat × Patch) : Nat → List Record :=
  writePage pg (u.1 / PAGE_SIZE)
    ((pg (u.1 / PAGE_SIZE)).set (u.1 % PAGE_SIZE)
      (applyPatch ((pg (u.1 / PAGE_SIZE)).getD (u.1 % PAGE_SIZE) []) u.2))

/-- Specification helper: apply a list of patches one at a time. -/
def applySeq (pg : Nat → List Record) : List (Nat × Patch) → (Nat → List Record)
  | [] => pg
  | u :: us => applySeq (applyOne pg u) us

/-- The record stored on disk at ordinal `i` (page `i / PAGE_SIZE`, slot
`i % PAGE_SIZE`) — what `get_record` decodes when its page is freshly
mapped. -/
def recordAt (pg : Nat → List Record) (i : Nat) : Option Record :=
  (pg (i / PAGE_SIZE))[i % PAGE_SIZE]?

/-! ### Trie index (`create_trie_on` / `open_trie_on` / `delete_trie_on` /
`search_records_on`)

A marisa `RecordTrie` built from `(key, (pos,))` pairs is abstracted as the
list of those pairs: `get` filters by exact key, `prefixes`/`keys`
enumerate the distinct stored keys related to the query by `isPrefixOf`. -/

/-- Error raised while building an index: the explicit
`ValueError("Attribute ... doesn't exist.")` check on record 0, or the
`AttributeError` of `getattr` on a later record lacking the attribute. -/
inductive TrieBuildErr where
  | noSuchAttribute
  | attributeError
deriving DecidableEq

/-- Errors surfaced by `search_records_on`: the `ValueError` for an unknown
`funcname`, `NoIndexError` from `open_trie_on`, and the (never expected)
`IndexError` when materializing a record. -/
inductive SearchErr where
  | invalidArg
  | noIndex
  | readError
deriving DecidableEq

/-- Does the record have the attribute (`hasattr(record, attr)`)? -/
def hasattrB (r : Record) (attr : String) : Bool :=
  (lookupField r attr).isSome

/-- The generator `kvgen` inside `create_trie_on`, with no `key_func` and
no `filter_func`, started at position `pos` over the remaining records:
checks the attribute on record 0, stringifies the attribute of each record
and yields `(str(attr value), pos)` for every nonempty key (an empty
string yields nothing, since iterating over `""` produces no characters). -/
def kvgenFrom (attr : String) : Nat → List Record → Except TrieBuildErr (List (String × Nat))
  | pos, [] =>
    let _ := pos
    .ok []
  | pos, r :: rest =>
    if pos = 0 ∧ ¬ hasattrB r attr then .error .noSuchAttribute
    else
      match lookupField r attr with
      | none => .error .attributeError
      | some v =>
        match kvgenFrom attr (pos + 1) rest with
        | .error e => .error e
        | .ok tl => .ok (if strOf v ≠ "" then (strOf v, pos) :: tl else tl)

/-- Specification helper (not source code): the key/position pairs `kvgen`
yields when it succeeds. -/
def specEntries (attr : String) : Nat → List Record → List (String × Nat)
  | _, [] => []
  | pos, r :: rest =>
    (match lookupField r attr with
      | some v => if strOf v ≠ "" then [(strOf v, pos)] else []
      | none => []) ++ specEntries attr (pos + 1) rest

/-- State of the trie subsystem of one table: the `{attr}.trie` files on
disk and the in-memory `self.trie_indexes` dict of opened tries. -/
structure TrieSys where
  disk : List (String × List (String × Nat))
  cache : List (String × List (String × Nat))

/-- `CapnpTable.open_trie_on(attr)`: return the cached trie if the
attribute is in `self.trie_indexes`; otherwise mmap `{attr}.trie` from
disk (caching it), or raise `NoIndexError` if the file does not exist. -/
def open_trie_on (ts : TrieSys) (attr : String) :
    Except SearchErr (List (String × Nat) × TrieSys) :=
  match lookupCache ts.cache attr with
  | some t => .ok (t, ts)
  | none =>
    match lookupCache ts.disk attr with
    | none => .error .noIndex
    | some t => .ok (t, { ts with cache := ts.cache ++ [(attr, t)] })

/-- `CapnpTable.create_trie_on(attr)` with no `key_func`/`filter_func`:
run `kvgen` over the table records, save the resulting trie to
`{attr}.trie` (overwriting any previous file), then `open_trie_on(attr)`.
Note that `open_trie_on` returns a previously cached trie unchanged. -/
def create_trie_on (rs : List Record) (ts : TrieSys) (attr : String) :
    Except TrieBuildErr TrieSys :=
  match kvgenFrom attr 0 rs with
  | .error e => .error e
  | .ok entries =>
    let ts1 : TrieSys :=
      { ts with disk := ts.disk.filter (fun e => e.1 ≠ attr) ++ [(attr, entries)] }
    match open_trie_on ts1 attr with
    | .ok tr => .ok tr.2
    | .error _ => .ok ts1

/-- `CapnpTable.delete_trie_on(attr)`: unlink `{attr}.trie` if present and
drop the attribute from `self.trie_indexes`. -/
def delete_trie_on (ts : TrieSys) (attr : String) : TrieSys :=
  { disk := ts.disk.filter (fun e => e.1 ≠ attr),
    cache := ts.cache.filter (fun e => e.1 ≠ attr) }

/-- `trie.get(value, [])` on a `RecordTrie` built from `entries`: the
positions stored under the exact key `value`. -/
def trieGet (entries : List (String × Nat)) (value : String) : List Nat :=
  (entries.filter (fun e => e.1 = value)).map (fun e => e.2)

/-- `trie.prefixes(value)`: the distinct stored keys that are prefixes of
`value` (string prefix, expressed on the character lists). -/
def triePrefixes (entries : List (String × Nat)) (value : String) : List String :=
  ((entries.map Prod.fst).dedup).filter (fun k => k.data.isPrefixOf value.data)

/-- `trie.keys(value)`: the distinct stored keys that begin with `value`. -/
def trieKeys (entries : List (String × Nat)) (value : String) : List String :=
  ((entries.map Prod.fst).dedup).filter (fun k => value.data.isPrefixOf k.data)

/-- `CapnpTable.search_records_on(attr, value, funcname)`: reject unknown
`funcname` first; open the trie (possibly raising `NoIndexError`); collect
positions according to the mode; deduplicate them (`set(...)`, modelled by
`List.dedup`); materialize each ordinal through `get_record`. -/
def search_records_on (s : TableState) (ts : TrieSys)
    (attr value funcname : String) : Except SearchErr (List Record) × TrieSys :=
  if ¬ (funcname = "get" ∨ funcname = "prefixes" ∨ funcname = "keys") then
    (.error .invalidArg, ts)
  else
    match open_trie_on ts attr with
    | .error e => (.error e, ts)
    | .ok tr =>
      let trie := tr.1
      let positions :=
        if funcname = "get" then trieGet trie value
        else if funcname = "prefixes" then
          (triePrefixes trie value).flatMap (fun v => trieGet trie v)
        else
          (trieKeys trie value).flatMap (fun v => trieGet trie v)
      match (positions.dedup).mapM (fun pos => getRecord? s pos) with
      | none => (.error .readError, tr.2)
      | some recs => (.ok recs, tr.2)

/-! ### `create` (`CapnpTable.create`) -/

/-- Content of a file inside a table directory. -/
inductive FileData where
  | textFile (s : String)
  | configFile (count : Nat)
  | pageFile (recs : List Record)
  | trieFile (entries : List (String × Nat))
deriving DecidableEq

/-- The schema text written by `create`: the user schema followed by the
synthesized `struct {record_type}List` declaration. -/
def synthSchema (schema recordType : String) : String :=
  schema ++ "struct " ++ recordType ++ "List \x7b\n  records @0 :List(" ++
    recordType ++ ");\n\x7d\n"

/-- `CapnpTable.create(capnp_schema, record_type)`, at the directory
level: if the table directory exists, `shutil.rmtree` deletes it with all
its contents; the directory is then recreated holding exactly the copied
schema file `{tablename}.capnp` and `config.json` with count 0.
(`dir` is the prior contents, `none` when the directory did not exist;
the subsequent `load_schema` call writes nothing to the directory.) -/
def createTable (dir : Option (List (String × FileData)))
    (tablename recordType schema : String) : List (String × FileData) :=
  let afterRm : List (String × FileData) :=
    match dir with
    | some _ => []
    | none => []
  afterRm ++
    [(tablename ++ ".capnp", .textFile (synthSchema schema recordType)),
     ("config.json", .configFile 0)]

/-! ### Schema loading (`CapnpManager.load_schema`)

The Cap'n Proto compiler is an external collaborator; it is abstracted as
a `compile` oracle that either succeeds or reports an error, where a
missing 64-bit file identifier is reported together with the suggested
identifier token embedded in the diagnostic. -/

/-- Outcome of compiling a schema text. -/
inductive CapnpErr where
  | noFileId (suggested : String)
  | other (msg : String)
deriving DecidableEq

/-- `CapnpManager.load_schema` as written in the source: call
`capnp.load` once; any failure propagates and the schema file on disk is
left as it is.  Returns the file content after the call together with the
result. -/
def load_schema (compile : String → Except CapnpErr String)
    (fileText : String) : String × Except CapnpErr String :=
  (fileText, compile fileText)

/-- Modelled from the spec: the schema-identifier self-repair of the
schema registry, which is absent from `src` (`load_schema` there has no
retry).  "If `load` fails with an error whose diagnostic embeds a
suggested identifier token, the registry MUST rewrite the file on disk by
prepending the suggested token and retry exactly once.  Any other failure
is fatal." -/
def load_schema_spec (compile : String → Except CapnpErr String)
    (fileText : String) : String × Except CapnpErr String :=
  match compile fileText with
  | .ok m => (fileText, .ok m)
  | .error (.noFileId tok) =>
    let rewritten := tok ++ "\n" ++ fileText
    (rewritten, compile rewritten)
  | .error e => (fileText, .error e)

/-- A concrete compile oracle: a schema whose text does not start with an
`@0x...;` identifier fails with the missing-identifier diagnostic. -/
def demoCompile (text : String) : Except CapnpErr String :=
  if "@0x".data.isPrefixOf text.data then .ok text
  else .error (.noFileId "@0xbf5147cbbecf40c1;")

/-- The Customer schema of the repository's test suite (no `@0x` id). -/
def demoSchema : String :=
  "struct Customer \x7b\n  index @0 :UInt32;\n  name @1 :Text;\n\x7d\n"

/-! ### Demonstration records used by witnesses -/

def demoRec (n : Int) : Record := [("id", Value.vInt n), ("name", Value.vText (toString n))]

/-- The good-state predicate tying a table state to the logical record
sequence it stores: the descriptor count is the length, and every page
file holds exactly its chunk of the sequence. -/
def goodState (s : TableState) (rs : List Record) : Prop :=
  s.count = rs.length ∧
    ∀ k, s.pages k = (rs.drop (k * PAGE_SIZE)).take PAGE_SIZE

/-- A sequence of `get_page_mmap` calls starting from an empty cache. -/
def cacheRun {K M : Type} [DecidableEq K] (openR : K → M) (ps : List K) :
    List (K × M) :=
  ps.foldl (fun c p => (get_page_mmap openR c p).2) []

/-- The index key contributed by ordinal `i` of the table (`str` of its
attribute value), when the record and the attribute exist. -/
def keyOf (rs : List Record) (attr : String) (i : Nat) : Option String :=
  (rs[i]?.bind (fun r => lookupField r attr)).map strOf

/-- Page files of a one-record demonstration table. -/
def demoPages : Nat → List Record := writePage (fun _ => []) 0 [demoRec 1]

/-- Manager of the demonstration table, its mmap cache still empty. -/
def demoMgr : ManagerState := ⟨1, demoPages, []⟩

/-- A record whose attribute `a` stringifies to the empty string. -/
def demoEmptyRec : Record := [("a", Value.vText "")]

/-- Demonstration records for the trie search witness. -/
def demoRecA : Record := [("name", Value.vText "ab")]

/-- Second demonstration record for the trie search witness. -/
def demoRecB : Record := [("name", Value.vText "abc")]

/-- Two-record table state holding `demoRecA` and `demoRecB`. -/
def demoTrieState : TableState :=
  ⟨2, writePage (fun _ => []) 0 [demoRecA, demoRecB]⟩

/-- One-record table state holding `demoEmptyRec`. -/
def demoEmptyState : TableState := ⟨1, writePage (fun _ => []) 0 [demoEmptyRec]⟩

/-! ## Proofs -/

theorem PAGE_SIZE_pos : 0 < PAGE_SIZE := by decide

/-! ### The paged store: good states, reads, appends -/

theorem goodState_initial : goodState initialState [] :=
  ⟨rfl, fun k => by simp [initialState]⟩

theorem goodState_getRecord? {s : TableState} {rs : List Record}
    (h : goodState s rs) (i : Nat) : getRecord? s i = rs[i]? := by
  rcases h with ⟨-, hp⟩
  rw [getRecord?, hp, List.getElem?_take,
    if_pos (Nat.mod_lt _ PAGE_SIZE_pos), List.getElem?_drop]
  congr 1
  simp only [PAGE_SIZE]
  omega

theorem goodState_readRange {s : TableState} {rs : List Record}
    (h : goodState s rs) :
    ∀ (n pos : Nat), pos + n ≤ rs.length →
      readRange s pos n = some ((rs.drop pos).take n) := by
  intro n
  induction n with
  | zero => intro pos _; simp [readRange]
  | succ m ih =>
    intro pos hle
    have hpos : pos < rs.length := by omega
    rw [readRange, goodState_getRecord? h, List.getElem?_eq_getElem hpos,
      ih (pos + 1) (by omega)]
    rw [List.drop_eq_getElem_cons hpos, List.take_succ_cons]

theorem take_drop_append_last {α : Type} (l : List α) (x : α) (n m : Nat)
    (h : n + m ≤ l.length) :
    ((l ++ [x]).drop n).take m = (l.drop n).take m := by
  rw [List.drop_append_of_le_length (by omega),
    List.take_append_of_le_length (by simp; omega)]

theorem appendLoop_good (rs0 : List Record) :
    ∀ (input rs buffer : List Record) (page : Nat)
      (pages : Nat → List Record) (tr : List FsOp) (curPos : Nat),
      curPos = rs.length →
      rs.length = page * PAGE_SIZE + buffer.length →
      buffer.length < PAGE_SIZE →
      buffer = rs.drop (page * PAGE_SIZE) →
      (∀ k, k < page → pages k = (rs.drop (k * PAGE_SIZE)).take PAGE_SIZE) →
      (∀ k, page ≤ k → pages k = (rs0.drop (k * PAGE_SIZE)).take PAGE_SIZE) →
      rs0.length ≤ rs.length →
      (∀ k, (appendLoop input buffer curPos page pages tr).1 k =
          ((rs ++ input).drop (k * PAGE_SIZE)).take PAGE_SIZE) ∧
        (appendLoop input buffer curPos page pages tr).2.1 =
          rs.length + input.length := by
  intro input
  induction input with
  | nil =>
    intro rs buffer page pages tr curPos hcur hlen hlt hbuf hlow hhigh h0
    subst hcur
    simp only [appendLoop, List.append_nil, List.length_nil, Nat.add_zero]
    by_cases hb : buffer.length > 0
    · rw [if_pos hb]
      refine ⟨fun k => ?_, rfl⟩
      show writePage pages page buffer k = List.take PAGE_SIZE (List.drop (k * PAGE_SIZE) rs)
      rcases Nat.lt_trichotomy k page with hk | hk | hk
      · simp only [writePage, if_neg (by omega : ¬ k = page)]
        exact hlow k hk
      · subst hk
        simp [writePage, hbuf]
      · simp only [writePage, if_neg (by omega : ¬ k = page)]
        have e1 : rs0.drop (k * PAGE_SIZE) = [] :=
          List.drop_eq_nil_of_le (by simp only [PAGE_SIZE] at *; omega)
        have e2 : rs.drop (k * PAGE_SIZE) = [] :=
          List.drop_eq_nil_of_le (by simp only [PAGE_SIZE] at *; omega)
        rw [hhigh k (by omega), e1, e2]
    · rw [if_neg hb]
      refine ⟨fun k => ?_, rfl⟩
      show pages k = List.take PAGE_SIZE (List.drop (k * PAGE_SIZE) rs)
      rcases Nat.lt_or_ge k page with hk | hk
      · exact hlow k hk
      · have e1 : rs0.drop (k * PAGE_SIZE) = [] :=
          List.drop_eq_nil_of_le (by simp only [PAGE_SIZE] at *; omega)
        have e2 : rs.drop (k * PAGE_SIZE) = [] :=
          List.drop_eq_nil_of_le (by simp only [PAGE_SIZE] at *; omega)
        rw [hhigh k hk, e1, e2]
  | cons r rest ih =>
    intro rs buffer page pages tr curPos hcur hlen hlt hbuf hlow hhigh h0
    subst hcur
    have hdr : (rs ++ [r]).drop (page * PAGE_SIZE) = rs.drop (page * PAGE_SIZE) ++ [r] :=
      List.drop_append_of_le_length (by omega)
    have hsplit : rs ++ r :: rest = (rs ++ [r]) ++ rest := by simp
    simp only [appendLoop]
    by_cases hful : (buffer ++ [r]).length = PAGE_SIZE
    · rw [if_pos hful]
      have h1 := ih (rs ++ [r]) [] (page + 1)
        (writePage pages page (buffer ++ [r]))
        (tr ++ [.writePageFile page ((buffer ++ [r]).take PAGE_SIZE)])
        (rs.length + 1) (by simp)
        (by simp only [List.length_append, List.length_cons, List.length_nil] at *
            simp only [PAGE_SIZE] at *
            omega)
        (by simpa using PAGE_SIZE_pos)
        (by refine (List.drop_eq_nil_of_le ?_).symm
            simp only [List.length_append, List.length_cons, List.length_nil] at *
            simp only [PAGE_SIZE] at *
            omega)
        (by intro k hk
            rcases Nat.lt_or_ge k page with hk2 | hk2
            · simp only [writePage, if_neg (by omega : ¬ k = page)]
              rw [hlow k hk2, take_drop_append_last]
              simp only [List.length_append, List.length_cons, List.length_nil] at *
              simp only [PAGE_SIZE] at *
              omega
            · have hk3 : k = page := by omega
              subst hk3
              simp [writePage, hdr, ← hbuf]
        )
        (by intro k hk
            simp only [writePage, if_neg (by omega : ¬ k = page)]
            exact hhigh k (by omega))
        (by simp; omega)
      rw [hsplit]
      constructor
      · intro k
        have := h1.1 k
        simpa using this
      · have := h1.2
        simp only [List.length_append, List.length_cons, List.length_nil] at *
        omega
    · rw [if_neg hful]
      have h1 := ih (rs ++ [r]) (buffer ++ [r]) page pages tr
        (rs.length + 1) (by simp)
        (by simp only [List.length_append, List.length_cons, List.length_nil] at *
            omega)
        (by simp only [List.length_append, List.length_cons, List.length_nil] at *
            omega)
        (by rw [hdr, ← hbuf])
        (by intro k hk
            rw [hlow k hk, take_drop_append_last]
            simp only [PAGE_SIZE] at *
            omega)
        (by intro k hk
            exact hhigh k hk)
        (by simp; omega)
      rw [hsplit]
      constructor
      · intro k
        have := h1.1 k
        simpa using this
      · have := h1.2
        simp only [List.length_append, List.length_cons, List.length_nil] at *
        omega

theorem append_records_good {s : TableState} {rs0 : List Record}
    (h : goodState s rs0) (input : List Record) :
    ∃ out, append_records s input = some out ∧
      goodState out.1 (rs0 ++ input) ∧
      out.1.count = rs0.length + input.length := by
  obtain ⟨hc, hp⟩ := h
  have hdiv : rs0.length / PAGE_SIZE * PAGE_SIZE ≤ rs0.length :=
    Nat.div_mul_le_self _ _
  have hbuf : (if rs0.length - rs0.length / PAGE_SIZE * PAGE_SIZE > 0
      then readRange s (rs0.length / PAGE_SIZE * PAGE_SIZE)
        (rs0.length - rs0.length / PAGE_SIZE * PAGE_SIZE)
      else some []) =
      some (rs0.drop (rs0.length / PAGE_SIZE * PAGE_SIZE)) := by
    by_cases htail : rs0.length - rs0.length / PAGE_SIZE * PAGE_SIZE > 0
    · rw [if_pos htail, goodState_readRange ⟨hc, hp⟩ _ _ (by omega)]
      congr 1
      apply List.take_of_length_le
      simp
    · rw [if_neg htail]
      have hnil : rs0.drop (rs0.length / PAGE_SIZE * PAGE_SIZE) = [] :=
        List.drop_eq_nil_of_le (by omega)
      rw [hnil]
  have hloop := appendLoop_good rs0 input rs0
    (rs0.drop (rs0.length / PAGE_SIZE * PAGE_SIZE)) (rs0.length / PAGE_SIZE)
    s.pages [] rs0.length rfl
    (by simp only [List.length_drop]; omega)
    (by simp only [List.length_drop]; simp only [PAGE_SIZE]; omega)
    rfl
    (fun k _ => hp k) (fun k _ => hp k) (Nat.le_refl _)
  simp only [append_records]
  rw [hc, hbuf]
  refine ⟨_, rfl, ⟨?_, fun k => hloop.1 k⟩, ?_⟩
  · simpa using hloop.2
  · simpa using hloop.2

theorem appendAll_good :
    ∀ (batches : List (List Record)) (s : TableState) (rs0 : List Record),
      goodState s rs0 →
      ∃ s', appendAll s batches = some s' ∧
        goodState s' (rs0 ++ batches.flatten) := by
  intro batches
  induction batches with
  | nil =>
    intro s rs0 h
    exact ⟨s, rfl, by simpa using h⟩
  | cons b rest ih =>
    intro s rs0 h
    obtain ⟨out, heq, hgood, -⟩ := append_records_good h b
    obtain ⟨s', heq', hgood'⟩ := ih out.1 (rs0 ++ b) hgood
    refine ⟨s', ?_, by simpa [List.append_assoc] using hgood'⟩
    simp only [appendAll]
    rw [heq]
    exact heq'

/-- Claim C1: starting from a freshly created table and appending batches
of records through successive `append_records` calls, every `get_record(i)`
with `i < N` returns exactly the `i`-th appended record, which is stored in
page `i / PAGE_SIZE` at slot `i % PAGE_SIZE`. -/
theorem append_get_round_trip (batches : List (List Record)) :
    ∃ s, appendAll initialState batches = some s ∧
      ∀ i, i < batches.flatten.length →
        getRecord? s i = batches.flatten[i]? ∧
        (s.pages (i / PAGE_SIZE))[i % PAGE_SIZE]? = batches.flatten[i]? := by
  obtain ⟨s, heq, hgood⟩ :=
    appendAll_good batches initialState [] goodState_initial
  rw [List.nil_append] at hgood
  exact ⟨s, heq, fun i _ =>
    ⟨goodState_getRecord? hgood i, goodState_getRecord? hgood i⟩⟩

/-- Witness for C1: three records appended in two batches; the record at
ordinal 2 is the third appended record. -/
theorem append_get_round_trip_witness :
    ∃ s, appendAll initialState [[demoRec 1], [demoRec 2, demoRec 3]] = some s ∧
      getRecord? s 2 = some (demoRec 3) := by
  obtain ⟨s, heq, h⟩ := append_get_round_trip [[demoRec 1], [demoRec 2, demoRec 3]]
  refine ⟨s, heq, ?_⟩
  rw [(h 2 (by decide)).1]
  rfl

/-- Claim C4: appending batches totalling `N` records to a freshly created
table makes `count_records()` (the descriptor count) return `N`. -/
theorem append_records_count (batches : List (List Record)) :
    ∃ s, appendAll initialState batches = some s ∧
      s.count = batches.flatten.length := by
  obtain ⟨s, heq, hgood⟩ :=
    appendAll_good batches initialState [] goodState_initial
  exact ⟨s, heq, by simpa using hgood.1⟩

/-! ### The write discipline of `append_records` (claim C5) -/

theorem appendLoop_trace :
    ∀ (input buffer : List Record) (curPos page : Nat)
      (pages : Nat → List Record) (tr : List FsOp),
      ∃ extra, (appendLoop input buffer curPos page pages tr).2.2 = tr ++ extra ∧
        ∀ op ∈ extra, ∃ k recs, op = FsOp.writePageFile k recs := by
  intro input
  induction input with
  | nil =>
    intro buffer curPos page pages tr
    by_cases hb : buffer.length > 0
    · refine ⟨[FsOp.writePageFile page (buffer.take PAGE_SIZE)], ?_, ?_⟩
      · simp [appendLoop, hb]
      · intro op hop
        simp only [List.mem_singleton] at hop
        exact ⟨_, _, hop⟩
    · exact ⟨[], by simp [appendLoop, hb], by simp⟩
  | cons r rest ih =>
    intro buffer curPos page pages tr
    by_cases hful : (buffer ++ [r]).length = PAGE_SIZE
    · obtain ⟨extra, he, hall⟩ := ih [] (curPos + 1) (page + 1)
        (writePage pages page (buffer ++ [r]))
        (tr ++ [FsOp.writePageFile page ((buffer ++ [r]).take PAGE_SIZE)])
      refine ⟨FsOp.writePageFile page ((buffer ++ [r]).take PAGE_SIZE) :: extra,
        ?_, ?_⟩
      · simp only [appendLoop]
        rw [if_pos hful, he]
        simp
      · intro op hop
        rcases List.mem_cons.mp hop with hop | hop
        · exact ⟨_, _, hop⟩
        · exact hall op hop
    · obtain ⟨extra, he, hall⟩ := ih (buffer ++ [r]) (curPos + 1) page pages tr
      refine ⟨extra, ?_, hall⟩
      simp only [appendLoop]
      rw [if_neg hful]
      exact he

theorem replayCount_of_no_config :
    ∀ (ops : List FsOp) (c0 : Nat),
      (∀ op ∈ ops, ∀ n, op ≠ FsOp.writeConfigFile n) →
      replayCount c0 ops = c0 := by
  intro ops
  induction ops with
  | nil => intro c0 _; rfl
  | cons op rest ih =>
    intro c0 hall
    have htail : ∀ o ∈ rest, ∀ n, o ≠ FsOp.writeConfigFile n :=
      fun o ho n => hall o (by simp [ho]) n
    cases op with
    | writeConfigFile n => exact absurd rfl (hall _ (by simp) n)
    | writePageFile k recs => exact ih c0 htail
    | renameFile a b => exact ih c0 htail

theorem mem_of_proper_prefix_concat {α : Type} (l : List α) (x : α)
    (pre : List α) (h : pre <+: l ++ [x]) (hne : pre ≠ l ++ [x]) :
    ∀ a ∈ pre, a ∈ l := by
  have heq : pre = (l ++ [x]).take pre.length := List.prefix_iff_eq_take.mp h
  have hlen : pre.length ≤ l.length := by
    by_contra hgt
    push_neg at hgt
    have hle := h.length_le
    simp only [List.length_append, List.length_cons, List.length_nil] at hle
    have hfull : pre.length = l.length + 1 := by omega
    rw [hfull] at heq
    have : (l ++ [x]).take (l.length + 1) = l ++ [x] := by
      apply List.take_of_length_le
      simp
    rw [this] at heq
    exact hne heq
  rw [List.take_append_of_le_length hlen] at heq
  intro a ha
  rw [heq] at ha
  exact (List.take_sublist _ _).subset ha

/-- Claim C5 (amended): every page write performed by `append_records` is a
direct in-place write of the page file (no temporary file, no rename); the
descriptor is written exactly once, directly, as the last operation of the
call; consequently, if execution stops before that final descriptor write
(in particular when a page write fails), the descriptor's count is not
advanced. -/
theorem append_write_discipline (s : TableState) (input : List Record)
    (s' : TableState) (tr : List FsOp)
    (h : append_records s input = some (s', tr)) :
    (∃ pageOps, tr = pageOps ++ [FsOp.writeConfigFile s'.count] ∧
      ∀ op ∈ pageOps, ∃ k recs, op = FsOp.writePageFile k recs) ∧
    (∀ op ∈ tr, ∀ a b, op ≠ FsOp.renameFile a b) ∧
    (∀ pre, pre <+: tr → pre ≠ tr → replayCount s.count pre = s.count) := by
  simp only [append_records] at h
  split at h
  · exact absurd h (by simp)
  · injection h with h
    rw [Prod.mk.injEq] at h
    obtain ⟨hs, ht⟩ := h
    obtain ⟨extra, he, hall⟩ := appendLoop_trace input _ s.count
      (s.count / PAGE_SIZE) s.pages []
    rw [List.nil_append] at he
    subst hs
    rw [← ht, he]
    refine ⟨⟨extra, rfl, hall⟩, ?_, ?_⟩
    · intro op hop a b
      rcases List.mem_append.mp hop with hop | hop
      · obtain ⟨k, recs, hk⟩ := hall op hop
        simp [hk]
      · simp only [List.mem_singleton] at hop
        simp [hop]
    · intro pre hpre hne
      apply replayCount_of_no_config
      intro op hop n
      obtain ⟨k, recs, hk⟩ :=
        hall op (mem_of_proper_prefix_concat _ _ _ hpre hne op hop)
      simp [hk]

/-- Counterexample for C5 as stated: a concrete append performs a page
write, yet its operation trace contains no rename at all — the page file is
not written to a temporary path and renamed. -/
theorem append_no_rename_counterexample :
    ∃ s' tr, append_records initialState [demoRec 1] = some (s', tr) ∧
      (∃ op ∈ tr, ∃ k recs, op = FsOp.writePageFile k recs) ∧
      ∀ op ∈ tr, ∀ a b, op ≠ FsOp.renameFile a b := by
  have h : append_records initialState [demoRec 1] =
      some (⟨1, writePage initialState.pages 0 [demoRec 1]⟩,
        [FsOp.writePageFile 0 ([demoRec 1].take PAGE_SIZE),
          FsOp.writeConfigFile 1]) := rfl
  refine ⟨_, _, h, ?_, ?_⟩
  · exact ⟨FsOp.writePageFile 0 ([demoRec 1].take PAGE_SIZE), by simp,
      0, [demoRec 1].take PAGE_SIZE, rfl⟩
  · exact (append_write_discipline _ _ _ _ h).2.1

/-- Witness for C5 (amended claim) at a concrete append: executing only the
page write of the trace (stopping before the descriptor write) leaves the
descriptor count unchanged. -/
theorem append_write_discipline_witness :
    ∃ s' tr, append_records initialState [demoRec 1] = some (s', tr) ∧
      replayCount initialState.count
        [FsOp.writePageFile 0 ([demoRec 1].take PAGE_SIZE)] =
        initialState.count := by
  have h : append_records initialState [demoRec 1] =
      some (⟨1, writePage initialState.pages 0 [demoRec 1]⟩,
        [FsOp.writePageFile 0 ([demoRec 1].take PAGE_SIZE),
          FsOp.writeConfigFile 1]) := rfl
  refine ⟨_, _, h, ?_⟩
  exact (append_write_discipline _ _ _ _ h).2.2
    [FsOp.writePageFile 0 ([demoRec 1].take PAGE_SIZE)]
    ⟨[FsOp.writeConfigFile 1], rfl⟩ (by simp)

/-! ### The mmap LRU cache (claim C6) -/

section CacheProofs

variable {K M : Type} [DecidableEq K]

theorem lookupCache_none_not_mem {c : List (K × M)} {p : K}
    (h : lookupCache c p = none) : ∀ e ∈ c, e.1 ≠ p := by
  intro e he
  simp only [lookupCache, Option.map_eq_none'] at h
  have := List.find?_eq_none.mp h e he
  simpa using this

theorem lookupCache_some_mem {c : List (K × M)} {p : K} {m : M}
    (h : lookupCache c p = some m) : ∃ e ∈ c, e.1 = p ∧ e.2 = m := by
  simp only [lookupCache, Option.map_eq_some'] at h
  obtain ⟨e, he, hm⟩ := h
  exact ⟨e, List.mem_of_find?_eq_some he, by simpa using List.find?_some he, hm⟩

theorem get_page_mmap_bound (openR : K → M) (c : List (K × M)) (p : K)
    (hnd : (c.map Prod.fst).Nodup) (hlen : c.length ≤ 10) :
    (get_page_mmap openR c p).2.length ≤ 10 ∧
      ((get_page_mmap openR c p).2.map Prod.fst).Nodup := by
  rcases h : lookupCache c p with - | m
  · simp only [get_page_mmap, h]
    have hmem := lookupCache_none_not_mem h
    have hnd1 : ((c ++ [(p, openR p)]).map Prod.fst).Nodup := by
      simp only [List.map_append]
      rw [List.nodup_append]
      refine ⟨hnd, by simp, ?_⟩
      intro a ha
      simp only [List.mem_map] at ha
      obtain ⟨e, he, hfst⟩ := ha
      simp only [List.map_cons, List.map_nil, List.mem_singleton]
      intro hap
      exact hmem e he (by rw [hfst, hap])
    by_cases hov : (c ++ [(p, openR p)]).length > 10
    · rw [if_pos hov]
      constructor
      · simp only [List.length_drop, List.length_append, List.length_cons,
          List.length_nil] at *
        omega
      · exact hnd1.sublist ((List.drop_sublist _ _).map Prod.fst)
    · rw [if_neg hov]
      exact ⟨by omega, hnd1⟩
  · simp only [get_page_mmap, h]
    obtain ⟨e, he, hep, -⟩ := lookupCache_some_mem h
    have hflt : (c.filter (fun e => e.1 ≠ p)).length < c.length := by
      apply List.length_filter_lt_length_iff_exists.mpr
      exact ⟨e, he, by simp [hep]⟩
    have hndf : ((c.filter (fun e => e.1 ≠ p)).map Prod.fst).Nodup :=
      hnd.sublist ((List.filter_sublist c).map Prod.fst)
    constructor
    · simp only [List.length_append, List.length_cons, List.length_nil]
      omega
    · simp only [List.map_append]
      rw [List.nodup_append]
      refine ⟨hndf, by simp, ?_⟩
      intro a ha
      simp only [List.mem_map] at ha
      obtain ⟨e', he', hfst⟩ := ha
      have := List.of_mem_filter he'
      simp only [List.map_cons, List.map_nil, List.mem_singleton]
      intro hap
      rw [hap] at hfst
      simp [hfst] at this

theorem cacheRun_inv (openR : K → M) :
    ∀ (ps : List K) (c : List (K × M)),
      (c.map Prod.fst).Nodup → c.length ≤ 10 →
      ((ps.foldl (fun cc q => (get_page_mmap openR cc q).2) c).length ≤ 10 ∧
        ((ps.foldl (fun cc q => (get_page_mmap openR cc q).2) c).map
          Prod.fst).Nodup) := by
  intro ps
  induction ps with
  | nil => intro c hnd hlen; exact ⟨hlen, hnd⟩
  | cons q rest ih =>
    intro c hnd hlen
    have hstep := get_page_mmap_bound openR c q hnd hlen
    exact ih _ hstep.2 hstep.1

/-- Claim C6: after every `get_page_mmap` call the page cache holds at most
10 entries (in particular along any call sequence from an empty cache); a
call on a cached path promotes the entry to most-recent and returns the
cached mapping; a call on an uncached path opens a new mapping, inserts it
as most-recent and, exactly when the cache already held 10 entries, evicts
the least-recently-used (front) entry. -/
theorem get_page_mmap_lru (openR : K → M) :
    (∀ ps : List K, (cacheRun openR ps).length ≤ 10 ∧
      ((cacheRun openR ps).map Prod.fst).Nodup) ∧
    (∀ (c : List (K × M)) (p : K),
      (c.map Prod.fst).Nodup → c.length ≤ 10 →
      ((get_page_mmap openR c p).2.length ≤ 10 ∧
        ((get_page_mmap openR c p).2.map Prod.fst).Nodup) ∧
      (∀ m, lookupCache c p = some m →
        (get_page_mmap openR c p).1 = m ∧
        (get_page_mmap openR c p).2 = c.filter (fun e => e.1 ≠ p) ++ [(p, m)]) ∧
      (lookupCache c p = none →
        (get_page_mmap openR c p).1 = openR p ∧
        (get_page_mmap openR c p).2 =
          (if c.length = 10 then (c ++ [(p, openR p)]).drop 1
           else c ++ [(p, openR p)]))) := by
  constructor
  · intro ps
    exact cacheRun_inv openR ps [] (by simp) (by simp)
  · intro c p hnd hlen
    refine ⟨get_page_mmap_bound openR c p hnd hlen, ?_, ?_⟩
    · intro m hm
      simp [get_page_mmap, hm]
    · intro hm
      constructor
      · simp [get_page_mmap, hm]
      · simp only [get_page_mmap, hm]
        by_cases hten : c.length = 10
        · rw [if_pos (by simp [hten]), if_pos hten]
        · rw [if_neg (by simp; omega), if_neg hten]

end CacheProofs

/-- Witness for C6: a full cache of ten entries receives a miss; the new
entry is appended as most-recent and the least-recently-used front entry
`(0, 0)` is the one evicted. -/
theorem get_page_mmap_lru_witness :
    (get_page_mmap (fun k : Nat => k)
      [(0, 0), (1, 1), (2, 2), (3, 3), (4, 4), (5, 5), (6, 6), (7, 7), (8, 8),
        (9, 9)] 10).2 =
      [(1, 1), (2, 2), (3, 3), (4, 4), (5, 5), (6, 6), (7, 7), (8, 8), (9, 9),
        (10, 10)] := by
  have h := ((get_page_mmap_lru (fun k : Nat => k)).2
    [(0, 0), (1, 1), (2, 2), (3, 3), (4, 4), (5, 5), (6, 6), (7, 7), (8, 8),
      (9, 9)] 10 (by decide) (by decide)).2.2 (by decide)
  rw [h.2]
  decide

/-! ### Point update: `update_records` (claim C3) -/

theorem writePage_at_self (pg : Nat → List Record) (page : Nat)
    (recs : List Record) : writePage pg page recs page = recs.take PAGE_SIZE := by
  simp [writePage]

theorem writePage_at_ne (pg : Nat → List Record) (page : Nat)
    (recs : List Record) (k : Nat) (h : k ≠ page) :
    writePage pg page recs k = pg k := by
  simp [writePage, h]

theorem writePage_writePage (pg : Nat → List Record) (p : Nat)
    (a b : List Record) : writePage (writePage pg p a) p b = writePage pg p b := by
  funext k
  by_cases h : k = p <;> simp [writePage, h]

theorem writePage_length_le (pg : Nat → List Record) (p : Nat)
    (recs : List Record) (hpg : ∀ k, (pg k).length ≤ PAGE_SIZE) :
    ∀ k, ((writePage pg p recs) k).length ≤ PAGE_SIZE := by
  intro k
  by_cases h : k = p
  · subst h; rw [writePage_at_self]; simp
  · rw [writePage_at_ne _ _ _ _ h]; exact hpg k

theorem insertByPos_of_forall_le (x : Nat × Patch) :
    ∀ l : List (Nat × Patch), (∀ y ∈ l, x.1 ≤ y.1) → insertByPos x l = x :: l := by
  intro l h
  cases l with
  | nil => rfl
  | cons y ys =>
    rw [insertByPos, if_pos (h y (by simp))]

theorem sortByPos_of_sorted :
    ∀ l : List (Nat × Patch), List.Pairwise (fun a b => a.1 ≤ b.1) l →
      sortByPos l = l := by
  intro l
  induction l with
  | nil => intro _; rfl
  | cons x xs ih =>
    intro hp
    rw [List.pairwise_cons] at hp
    have hfold : sortByPos (x :: xs) = insertByPos x (sortByPos xs) := rfl
    rw [hfold, ih hp.2, insertByPos_of_forall_le x xs hp.1]

theorem updateLoop_open_eq :
    ∀ (us : List (Nat × Patch)) (cp : Nat) (records : List Record)
      (pg : Nat → List Record),
      List.Pairwise (fun a b => a.1 ≤ b.1) us →
      (∀ u ∈ us, cp ≤ u.1 / PAGE_SIZE) →
      records.length ≤ PAGE_SIZE →
      (∀ k, (pg k).length ≤ PAGE_SIZE) →
      updateLoop us (some cp) records pg =
        applySeq (writePage pg cp records) us := by
  intro us
  induction us with
  | nil => intro cp records pg _ _ _ _; rfl
  | cons u rest ih =>
    obtain ⟨pos, nv⟩ := u
    intro cp records pg hpair hge hrec hpg
    rw [List.pairwise_cons] at hpair
    by_cases hpage : cp = pos / PAGE_SIZE
    · have hstep : updateLoop ((pos, nv) :: rest) (some cp) records pg =
          updateLoop rest (some cp)
            (records.set (pos % PAGE_SIZE)
              (applyPatch (records.getD (pos % PAGE_SIZE) []) nv)) pg := by
        simp only [updateLoop]
        rw [if_pos (by rw [hpage])]
      have hpgf : writePage pg cp records cp = records := by
        rw [writePage_at_self, List.take_of_length_le hrec]
      have happ : applyOne (writePage pg cp records) (pos, nv) =
          writePage pg cp (records.set (pos % PAGE_SIZE)
            (applyPatch (records.getD (pos % PAGE_SIZE) []) nv)) := by
        unfold applyOne
        rw [← hpage, hpgf, writePage_writePage]
      calc updateLoop ((pos, nv) :: rest) (some cp) records pg
          = updateLoop rest (some cp)
              (records.set (pos % PAGE_SIZE)
                (applyPatch (records.getD (pos % PAGE_SIZE) []) nv)) pg := hstep
        _ = applySeq (writePage pg cp
              (records.set (pos % PAGE_SIZE)
                (applyPatch (records.getD (pos % PAGE_SIZE) []) nv))) rest := by
              exact ih cp _ pg hpair.2 (fun v hv => hge v (by simp [hv]))
                (by rw [List.length_set]; exact hrec) hpg
        _ = applySeq (applyOne (writePage pg cp records) (pos, nv)) rest := by
              rw [happ]
        _ = applySeq (writePage pg cp records) ((pos, nv) :: rest) := rfl
    · have hstep : updateLoop ((pos, nv) :: rest) (some cp) records pg =
          updateLoop rest (some (pos / PAGE_SIZE))
            (((writePage pg cp records) (pos / PAGE_SIZE)).set (pos % PAGE_SIZE)
              (applyPatch (((writePage pg cp records) (pos / PAGE_SIZE)).getD
                (pos % PAGE_SIZE) []) nv))
            (writePage pg cp records) := by
        simp only [updateLoop]
        rw [if_neg (by simpa using hpage)]
      have hpg' := writePage_length_le pg cp records hpg
      calc updateLoop ((pos, nv) :: rest) (some cp) records pg
          = updateLoop rest (some (pos / PAGE_SIZE))
              (((writePage pg cp records) (pos / PAGE_SIZE)).set (pos % PAGE_SIZE)
                (applyPatch (((writePage pg cp records) (pos / PAGE_SIZE)).getD
                  (pos % PAGE_SIZE) []) nv))
              (writePage pg cp records) := hstep
        _ = applySeq (writePage (writePage pg cp records) (pos / PAGE_SIZE)
              (((writePage pg cp records) (pos / PAGE_SIZE)).set (pos % PAGE_SIZE)
                (applyPatch (((writePage pg cp records) (pos / PAGE_SIZE)).getD
                  (pos % PAGE_SIZE) []) nv))) rest := by
              exact ih (pos / PAGE_SIZE) _ _ hpair.2
                (fun v hv => Nat.div_le_div_right (hpair.1 v hv))
                (by rw [List.length_set]; exact hpg' _) hpg'
        _ = applySeq (writePage pg cp records) ((pos, nv) :: rest) := rfl

theorem updateLoop_none_eq (us : List (Nat × Patch)) (pg : Nat → List Record)
    (hpair : List.Pairwise (fun a b => a.1 ≤ b.1) us)
    (hpg : ∀ k, (pg k).length ≤ PAGE_SIZE) :
    updateLoop us none [] pg = applySeq pg us := by
  cases us with
  | nil => rfl
  | cons u rest =>
    obtain ⟨pos, nv⟩ := u
    rw [List.pairwise_cons] at hpair
    have hstep : updateLoop ((pos, nv) :: rest) none [] pg =
        updateLoop rest (some (pos / PAGE_SIZE))
          ((pg (pos / PAGE_SIZE)).set (pos % PAGE_SIZE)
            (applyPatch ((pg (pos / PAGE_SIZE)).getD (pos % PAGE_SIZE) []) nv))
          pg := by
      simp only [updateLoop]
      rw [if_neg (by simp)]
    rw [hstep, updateLoop_open_eq rest (pos / PAGE_SIZE) _ pg hpair.2
      (fun v hv => Nat.div_le_div_right (hpair.1 v hv))
      (by rw [List.length_set]; exact hpg _) hpg]
    rfl

theorem update_records_eq_applySeq (pg : Nat → List Record)
    (us : List (Nat × Patch))
    (hpair : List.Pairwise (fun a b => a.1 < b.1) us)
    (hpg : ∀ k, (pg k).length ≤ PAGE_SIZE) :
    update_records pg us = applySeq pg us := by
  unfold update_records
  rw [sortByPos_of_sorted us (hpair.imp (fun h => h.le))]
  exact updateLoop_none_eq us pg (hpair.imp (fun h => h.le)) hpg

theorem applyOne_length (pg : Nat → List Record) (u : Nat × Patch)
    (hpg : ∀ k, (pg k).length ≤ PAGE_SIZE) (k : Nat) :
    ((applyOne pg u) k).length = (pg k).length := by
  by_cases h : k = u.1 / PAGE_SIZE
  · subst h
    unfold applyOne
    rw [writePage_at_self,
      List.take_of_length_le (by rw [List.length_set]; exact hpg _),
      List.length_set]
  · unfold applyOne
    rw [writePage_at_ne _ _ _ _ h]

theorem recordAt_applyOne_self (pg : Nat → List Record) (u : Nat × Patch)
    (hpg : ∀ k, (pg k).length ≤ PAGE_SIZE)
    (hin : u.1 % PAGE_SIZE < (pg (u.1 / PAGE_SIZE)).length) :
    recordAt (applyOne pg u) u.1 =
      (recordAt pg u.1).map (fun r => applyPatch r u.2) := by
  unfold recordAt applyOne
  rw [writePage_at_self,
    List.take_of_length_le (by rw [List.length_set]; exact hpg _)]
  rw [List.getElem?_set_self]
  · rw [List.getElem?_eq_getElem hin, List.getD_eq_getElem _ _ hin]
    rfl
  · exact hin

theorem recordAt_applyOne_ne (pg : Nat → List Record) (u : Nat × Patch)
    (i : Nat) (hpg : ∀ k, (pg k).length ≤ PAGE_SIZE) (hne : i ≠ u.1) :
    recordAt (applyOne pg u) i = recordAt pg i := by
  by_cases hq : i / PAGE_SIZE = u.1 / PAGE_SIZE
  · have hr : u.1 % PAGE_SIZE ≠ i % PAGE_SIZE := by
      intro he
      simp only [PAGE_SIZE] at hq he
      omega
    unfold recordAt applyOne
    rw [hq, writePage_at_self,
      List.take_of_length_le (by rw [List.length_set]; exact hpg _),
      List.getElem?_set_ne hr]
  · unfold recordAt applyOne
    rw [writePage_at_ne _ _ _ _ hq]

theorem recordAt_applySeq_untouched :
    ∀ (us : List (Nat × Patch)) (pg : Nat → List Record) (i : Nat),
      (∀ k, (pg k).length ≤ PAGE_SIZE) →
      (∀ u ∈ us, i ≠ u.1) →
      recordAt (applySeq pg us) i = recordAt pg i := by
  intro us
  induction us with
  | nil => intro pg i _ _; rfl
  | cons u rest ih =>
    intro pg i hpg hni
    have h1 := ih (applyOne pg u) i
      (fun k => by rw [applyOne_length pg u hpg k]; exact hpg k)
      (fun v hv => hni v (by simp [hv]))
    calc recordAt (applySeq pg (u :: rest)) i
        = recordAt (applySeq (applyOne pg u) rest) i := rfl
      _ = recordAt (applyOne pg u) i := h1
      _ = recordAt pg i := recordAt_applyOne_ne pg u i hpg (hni u (by simp))

theorem applySeq_frame :
    ∀ (us : List (Nat × Patch)) (pg : Nat → List Record),
      (∀ k, (pg k).length ≤ PAGE_SIZE) →
      List.Pairwise (fun a b => a.1 < b.1) us →
      (∀ u ∈ us, u.1 % PAGE_SIZE < (pg (u.1 / PAGE_SIZE)).length) →
      ∀ u ∈ us, recordAt (applySeq pg us) u.1 =
        (recordAt pg u.1).map (fun r => applyPatch r u.2) := by
  intro us
  induction us with
  | nil => intro pg _ _ _ u hu; cases hu
  | cons u0 rest ih =>
    intro pg hpg hpair hin u hu
    rw [List.pairwise_cons] at hpair
    have hpg' : ∀ k, ((applyOne pg u0) k).length ≤ PAGE_SIZE :=
      fun k => by rw [applyOne_length pg u0 hpg k]; exact hpg k
    rcases List.mem_cons.mp hu with rfl | hu'
    · calc recordAt (applySeq pg (u :: rest)) u.1
          = recordAt (applySeq (applyOne pg u) rest) u.1 := rfl
        _ = recordAt (applyOne pg u) u.1 :=
            recordAt_applySeq_untouched rest (applyOne pg u) u.1 hpg'
              (fun v hv => Nat.ne_of_lt (hpair.1 v hv))
        _ = (recordAt pg u.1).map (fun r => applyPatch r u.2) :=
            recordAt_applyOne_self pg u hpg (hin u (by simp))
    · have hne : u.1 ≠ u0.1 := Nat.ne_of_gt (hpair.1 u hu')
      calc recordAt (applySeq pg (u0 :: rest)) u.1
          = recordAt (applySeq (applyOne pg u0) rest) u.1 := rfl
        _ = (recordAt (applyOne pg u0) u.1).map (fun r => applyPatch r u.2) :=
            ih (applyOne pg u0) hpg' hpair.2
              (fun v hv => by
                rw [applyOne_length pg u0 hpg]
                exact hin v (by simp [hv])) u hu'
        _ = (recordAt pg u.1).map (fun r => applyPatch r u.2) := by
            rw [recordAt_applyOne_ne pg u0 u.1 hpg hne]

theorem setField_cons (p : String × Value) (rest : List (String × Value))
    (f : String) (v : Value) :
    setField (p :: rest) f v =
      (if p.1 = f then (p.1, v) else p) :: setField rest f v := by
  simp [setField]

theorem lookupField_setField_self (r : Record) (f : String) (v : Value) :
    lookupField (setField r f v) f = (lookupField r f).map (fun _ => v) := by
  induction r with
  | nil => rfl
  | cons p rest ih =>
    rw [setField_cons]
    by_cases h : p.1 = f <;> simp [lookupField, h, ih]

theorem lookupField_setField_ne (r : Record) (f g : String) (v : Value)
    (h : g ≠ f) :
    lookupField (setField r f v) g = lookupField r g := by
  induction r with
  | nil => rfl
  | cons p rest ih =>
    rw [setField_cons]
    by_cases hp : p.1 = f
    · have hg : ¬ p.1 = g := fun he => h (he ▸ hp)
      have hfg : ¬ f = g := fun he => h he.symm
      simp [lookupField, hp, hg, hfg, ih]
    · by_cases hg : p.1 = g <;> simp [lookupField, hp, hg, ih, h]

theorem hasattrB_setField (r : Record) (f g : String) (v : Value) :
    hasattrB (setField r f v) g = hasattrB r g := by
  by_cases h : g = f
  · subst h
    unfold hasattrB
    rw [lookupField_setField_self]
    cases lookupField r g <;> rfl
  · unfold hasattrB
    rw [lookupField_setField_ne _ _ _ _ h]

theorem applyPatch_lookup_not_mem :
    ∀ (patch : Patch) (r : Record) (g : String),
      g ∉ patch.map Prod.fst →
      lookupField (applyPatch r patch) g = lookupField r g := by
  intro patch
  induction patch with
  | nil => intro r g _; rfl
  | cons kv rest ih =>
    intro r g hg
    simp only [List.map_cons, List.mem_cons] at hg
    push_neg at hg
    have hstep : applyPatch r (kv :: rest) =
        applyPatch (setField r kv.1 kv.2) rest := rfl
    rw [hstep, ih _ g hg.2, lookupField_setField_ne _ _ _ _ hg.1]

theorem applyPatch_lookup_mem :
    ∀ (patch : Patch) (r : Record) (f : String) (v : Value),
      (patch.map Prod.fst).Nodup →
      (f, v) ∈ patch →
      hasattrB r f = true →
      lookupField (applyPatch r patch) f = some v := by
  intro patch
  induction patch with
  | nil => intro r f v _ hmem _; cases hmem
  | cons kv rest ih =>
    intro r f v hnd hmem hattr
    simp only [List.map_cons, List.nodup_cons] at hnd
    have hstep : applyPatch r (kv :: rest) =
        applyPatch (setField r kv.1 kv.2) rest := rfl
    rcases List.mem_cons.mp hmem with rfl | hmem'
    · rw [hstep, applyPatch_lookup_not_mem rest _ f hnd.1,
        lookupField_setField_self]
      unfold hasattrB at hattr
      cases hlk : lookupField r f with
      | none => rw [hlk] at hattr; simp at hattr
      | some w => rfl
    · have hne : f ≠ kv.1 := by
        intro he
        apply hnd.1
        rw [← he]
        exact List.mem_map_of_mem Prod.fst hmem'
      rw [hstep]
      exact ih (setField r kv.1 kv.2) f v hnd.2 hmem'
        (by rw [hasattrB_setField]; exact hattr)

/-- Claim C3 (amended): after a successful `update_records(patches)` call,
the on-disk record at every patched ordinal `i` is exactly the pre-update
record with the patch applied — each patched field holds its new value and
every other field is unchanged — and no other ordinal is modified; the
descriptor count is untouched.  However, contrary to the claim as stated,
the mmap cache is left completely untouched: the cache entry of an
overwritten page path is NOT purged (the source relies on the in-place
overwrite of the page file; a read that opens the page afresh sees the
new bytes). -/
theorem update_records_frame (s : ManagerState) (updates : List (Nat × Patch))
    (hpg : ∀ k, (s.pages k).length ≤ PAGE_SIZE)
    (hpair : List.Pairwise (fun a b => a.1 < b.1) updates)
    (hin : ∀ u ∈ updates, u.1 % PAGE_SIZE < (s.pages (u.1 / PAGE_SIZE)).length) :
    (update_records_m s updates).cache = s.cache ∧
    (update_records_m s updates).count = s.count ∧
    (∀ u ∈ updates, ∀ r, recordAt s.pages u.1 = some r →
      recordAt (update_records_m s updates).pages u.1 =
        some (applyPatch r u.2) ∧
      ((u.2.map Prod.fst).Nodup →
        ∀ f v, (f, v) ∈ u.2 → hasattrB r f = true →
          lookupField (applyPatch r u.2) f = some v) ∧
      (∀ g, g ∉ u.2.map Prod.fst →
        lookupField (applyPatch r u.2) g = lookupField r g)) ∧
    (∀ j, (∀ u ∈ updates, j ≠ u.1) →
      recordAt (update_records_m s updates).pages j = recordAt s.pages j) := by
  have hupd : update_records s.pages updates = applySeq s.pages updates :=
    update_records_eq_applySeq s.pages updates hpair hpg
  refine ⟨rfl, rfl, ?_, ?_⟩
  · intro u hu r hr
    refine ⟨?_, ?_, ?_⟩
    · show recordAt (update_records s.pages updates) u.1 = _
      rw [hupd, applySeq_frame updates s.pages hpg hpair hin u hu, hr]
      rfl
    · intro hnd f v hfv hattr
      exact applyPatch_lookup_mem u.2 r f v hnd hfv hattr
    · intro g hg
      exact applyPatch_lookup_not_mem u.2 r g hg
  · intro j hj
    show recordAt (update_records s.pages updates) j = _
    rw [hupd]
    exact recordAt_applySeq_untouched updates s.pages j hpg hj

/-- Witness for C3 (amended claim) on a concrete one-record table: updating
field `name` of ordinal 0 leaves the cache untouched and stores exactly the
patched record on disk. -/
theorem update_records_frame_witness :
    (update_records_m demoMgr [(0, [("name", Value.vText "zz")])]).cache =
      demoMgr.cache ∧
    recordAt (update_records_m demoMgr
        [(0, [("name", Value.vText "zz")])]).pages 0 =
      some (applyPatch (demoRec 1) [("name", Value.vText "zz")]) ∧
    lookupField (applyPatch (demoRec 1) [("name", Value.vText "zz")]) "name" =
      some (Value.vText "zz") ∧
    lookupField (applyPatch (demoRec 1) [("name", Value.vText "zz")]) "id" =
      lookupField (demoRec 1) "id" := by
  have h := update_records_frame demoMgr [(0, [("name", Value.vText "zz")])]
    (by intro k
        by_cases hk : k = 0 <;>
          simp [demoMgr, demoPages, writePage, hk, PAGE_SIZE])
    (by simp)
    (by intro u hu
        simp only [List.mem_singleton] at hu
        subst hu
        decide)
  have hrec := h.2.2.1 (0, [("name", Value.vText "zz")]) (by simp)
    (demoRec 1) (by decide)
  exact ⟨h.1, hrec.1, hrec.2.1 (by decide) "name" (Value.vText "zz")
    (by decide) (by decide), hrec.2.2 "id" (by decide)⟩

/-- Counterexample for C3 as stated: after `get_record` has cached page 0
and `update_records` has overwritten that page, the mmap cache still
contains the entry for the overwritten page path — nothing is purged. -/
theorem update_records_cache_not_purged :
    ∃ r1 s1, get_record_m demoMgr 0 = (r1, s1) ∧
      (update_records_m s1 [(0, [("name", Value.vText "zz")])]).cache =
        s1.cache ∧
      lookupCache (update_records_m s1
        [(0, [("name", Value.vText "zz")])]).cache 0 ≠ none := by
  refine ⟨_, _, rfl, rfl, ?_⟩
  decide

/-! ### The trie index (claims C2, C9, C10) -/

theorem lookupCache_filter_self {K V : Type} [DecidableEq K]
    (l : List (K × V)) (k : K) :
    lookupCache (l.filter (fun e => e.1 ≠ k)) k = none := by
  simp only [lookupCache, Option.map_eq_none']
  apply List.find?_eq_none.mpr
  intro x hx
  simpa using List.of_mem_filter hx

theorem lookupCache_append_right {K V : Type} [DecidableEq K]
    (c : List (K × V)) (k : K) (v : V) (h : lookupCache c k = none) :
    lookupCache (c ++ [(k, v)]) k = some v := by
  simp only [lookupCache, Option.map_eq_none'] at h
  simp only [lookupCache, List.find?_append, h]
  simp

theorem lookupCache_filter_append {K V : Type} [DecidableEq K]
    (l : List (K × V)) (k : K) (v : V) :
    lookupCache (l.filter (fun e => e.1 ≠ k) ++ [(k, v)]) k = some v :=
  lookupCache_append_right _ k v (lookupCache_filter_self l k)

theorem kvgenFrom_ok_of_all (attr : String) :
    ∀ (rs : List Record) (p : Nat),
      (∀ r ∈ rs, hasattrB r attr = true) →
      kvgenFrom attr p rs = .ok (specEntries attr p rs) := by
  intro rs
  induction rs with
  | nil => intro p _; rfl
  | cons r rest ih =>
    intro p hall
    have hr : hasattrB r attr = true := hall r (by simp)
    have hcond : ¬ (p = 0 ∧ ¬ hasattrB r attr) := by simp [hr]
    have hr2 := hr
    unfold hasattrB at hr2
    obtain ⟨v, hv⟩ := Option.isSome_iff_exists.mp hr2
    rw [show kvgenFrom attr p (r :: rest) =
      (if p = 0 ∧ ¬ hasattrB r attr then .error .noSuchAttribute
       else
        match lookupField r attr with
        | none => .error .attributeError
        | some v =>
          match kvgenFrom attr (p + 1) rest with
          | .error e => .error e
          | .ok tl => .ok (if strOf v ≠ "" then (strOf v, p) :: tl else tl))
      from rfl]
    rw [if_neg hcond, hv, ih (p + 1) (fun x hx => hall x (by simp [hx]))]
    rw [show specEntries attr p (r :: rest) =
      (match lookupField r attr with
        | some v => if strOf v ≠ "" then [(strOf v, p)] else []
        | none => []) ++ specEntries attr (p + 1) rest from rfl]
    rw [hv]
    by_cases hs : strOf v ≠ "" <;> simp [hs]

theorem kvgenFrom_ne_noSuchAttribute (attr : String) :
    ∀ (rs : List Record) (p : Nat), p ≠ 0 →
      kvgenFrom attr p rs ≠ .error .noSuchAttribute := by
  intro rs
  induction rs with
  | nil =>
    intro p _ h
    simp [kvgenFrom] at h
  | cons r rest ih =>
    intro p hp
    have hcond : ¬ (p = 0 ∧ ¬ hasattrB r attr) := by simp [hp]
    rw [show kvgenFrom attr p (r :: rest) =
      (if p = 0 ∧ ¬ hasattrB r attr then .error .noSuchAttribute
       else
        match lookupField r attr with
        | none => .error .attributeError
        | some v =>
          match kvgenFrom attr (p + 1) rest with
          | .error e => .error e
          | .ok tl => .ok (if strOf v ≠ "" then (strOf v, p) :: tl else tl))
      from rfl]
    rw [if_neg hcond]
    cases hlk : lookupField r attr with
    | none => simp
    | some v =>
      cases hrec : kvgenFrom attr (p + 1) rest with
      | error e =>
        have hne := ih (p + 1) (by omega)
        rw [hrec] at hne
        simpa using hne
      | ok tl =>
        by_cases hs : strOf v ≠ "" <;> simp [hs]

theorem specEntries_shift (attr : String) :
    ∀ (rs : List Record) (p : Nat),
      specEntries attr (p + 1) rs =
        (specEntries attr p rs).map (fun e => (e.1, e.2 + 1)) := by
  intro rs
  induction rs with
  | nil => intro p; rfl
  | cons r rest ih =>
    intro p
    rw [show specEntries attr (p + 1) (r :: rest) =
      (match lookupField r attr with
        | some v => if strOf v ≠ "" then [(strOf v, p + 1)] else []
        | none => []) ++ specEntries attr (p + 2) rest from rfl]
    rw [show specEntries attr p (r :: rest) =
      (match lookupField r attr with
        | some v => if strOf v ≠ "" then [(strOf v, p)] else []
        | none => []) ++ specEntries attr (p + 1) rest from rfl]
    rw [List.map_append, ih (p + 1)]
    congr 1
    cases lookupField r attr with
    | none => rfl
    | some v => by_cases hs : strOf v ≠ "" <;> simp [hs]

theorem keyOf_cons_zero (r : Record) (rest : List Record) (attr : String) :
    keyOf (r :: rest) attr 0 = (lookupField r attr).map strOf := by
  simp [keyOf]

theorem keyOf_cons_succ (r : Record) (rest : List Record) (attr : String)
    (j : Nat) : keyOf (r :: rest) attr (j + 1) = keyOf rest attr j := by
  simp [keyOf]

theorem mem_specEntries (attr : String) :
    ∀ (rs : List Record) (k : String) (i : Nat),
      (k, i) ∈ specEntries attr 0 rs ↔
        i < rs.length ∧ keyOf rs attr i = some k ∧ k ≠ "" := by
  intro rs
  induction rs with
  | nil => intro k i; simp [specEntries, keyOf]
  | cons r rest ih =>
    intro k i
    have hmapsucc : ∀ j, ((k, j + 1) ∈ (specEntries attr 0 rest).map
        (fun e => (e.1, e.2 + 1))) ↔ (k, j) ∈ specEntries attr 0 rest := by
      intro j
      simp only [List.mem_map]
      constructor
      · rintro ⟨⟨a, b⟩, he, heq⟩
        simp only [Prod.mk.injEq] at heq
        obtain ⟨h1, h2⟩ := heq
        have hb : b = j := by omega
        rw [← h1, ← hb]
        exact he
      · intro he
        exact ⟨(k, j), he, rfl⟩
    have hmapzero : ((k, 0) ∈ (specEntries attr 0 rest).map
        (fun e => (e.1, e.2 + 1))) ↔ False := by simp
    have hshift : specEntries attr 1 rest =
        (specEntries attr 0 rest).map (fun e => (e.1, e.2 + 1)) :=
      specEntries_shift attr rest 0
    cases hlk : lookupField r attr with
    | none =>
      simp only [specEntries, hlk, List.nil_append, hshift]
      cases i with
      | zero =>
        rw [hmapzero, keyOf_cons_zero, hlk]
        simp
      | succ j =>
        rw [hmapsucc j, ih k j, keyOf_cons_succ]
        simp [Nat.succ_lt_succ_iff]
    | some v =>
      simp only [specEntries, hlk, hshift]
      by_cases hs : strOf v = ""
      · rw [if_neg (by simp [hs])]
        simp only [List.nil_append]
        cases i with
        | zero =>
          rw [hmapzero, keyOf_cons_zero, hlk]
          constructor
          · intro h
            exact h.elim
          · rintro ⟨-, hk, hne⟩
            have hkv : strOf v = k := by simpa using hk
            exact absurd (by rw [← hkv, hs]) hne
        | succ j =>
          rw [hmapsucc j, ih k j, keyOf_cons_succ]
          simp [Nat.succ_lt_succ_iff]
      · rw [if_pos hs]
        cases i with
        | zero =>
          rw [List.singleton_append, List.mem_cons, hmapzero, or_false,
            keyOf_cons_zero, hlk]
          constructor
          · intro hmem
            simp only [Prod.mk.injEq] at hmem
            obtain ⟨h1, -⟩ := hmem
            exact ⟨by simp, by simp [h1], by rw [h1]; exact hs⟩
          · rintro ⟨-, hk, hne⟩
            have hkv : strOf v = k := by simpa using hk
            simp [hkv]
        | succ j =>
          rw [List.singleton_append, List.mem_cons, hmapsucc j, ih k j,
            keyOf_cons_succ]
          have hne0 : ((k, j + 1) = (strOf v, 0)) ↔ False := by simp
          rw [hne0, false_or]
          simp [Nat.succ_lt_succ_iff]

theorem goodState_getRecord?_getD {s : TableState} {rs : List Record}
    (hgood : goodState s rs) {i : Nat} (hi : i < rs.length) :
    getRecord? s i = some (rs.getD i []) := by
  rw [goodState_getRecord? hgood i, List.getElem?_eq_getElem hi,
    List.getD_eq_getElem _ _ hi]

theorem mapM_getRecord? {s : TableState} {rs : List Record}
    (hgood : goodState s rs) :
    ∀ (l : List Nat), (∀ i ∈ l, i < rs.length) →
      l.mapM (fun pos => getRecord? s pos) =
        some (l.map (fun i => rs.getD i [])) := by
  intro l
  induction l with
  | nil => intro _; rfl
  | cons a as ih =>
    intro hl
    simp only [List.mapM_cons, List.map_cons]
    rw [goodState_getRecord?_getD hgood (hl a (by simp)),
      ih (fun i hi => hl i (by simp [hi]))]
    rfl

theorem mem_trieGet (entries : List (String × Nat)) (v : String) (i : Nat) :
    i ∈ trieGet entries v ↔ (v, i) ∈ entries := by
  simp only [trieGet, List.mem_map, List.mem_filter]
  constructor
  · rintro ⟨⟨a, b⟩, ⟨he, hev⟩, hei⟩
    simp only at hei
    simp only [decide_eq_true_eq] at hev
    rw [← hev, ← hei]
    exact he
  · intro h
    exact ⟨(v, i), ⟨h, by simp⟩, rfl⟩

theorem mem_flatMap_triePrefixes (entries : List (String × Nat))
    (value : String) (i : Nat) :
    (i ∈ (triePrefixes entries value).flatMap (fun v => trieGet entries v)) ↔
      ∃ k, (k, i) ∈ entries ∧ k.data.isPrefixOf value.data = true := by
  unfold triePrefixes
  simp only [List.mem_flatMap, List.mem_filter, List.mem_dedup, mem_trieGet]
  constructor
  · rintro ⟨k2, ⟨-, hp⟩, hm⟩
    exact ⟨k2, hm, by simpa using hp⟩
  · rintro ⟨k2, hm, hp⟩
    exact ⟨k2, ⟨List.mem_map_of_mem Prod.fst hm, by simpa using hp⟩, hm⟩

theorem mem_flatMap_trieKeys (entries : List (String × Nat))
    (value : String) (i : Nat) :
    (i ∈ (trieKeys entries value).flatMap (fun v => trieGet entries v)) ↔
      ∃ k, (k, i) ∈ entries ∧ value.data.isPrefixOf k.data = true := by
  unfold trieKeys
  simp only [List.mem_flatMap, List.mem_filter, List.mem_dedup, mem_trieGet]
  constructor
  · rintro ⟨k2, ⟨-, hp⟩, hm⟩
    exact ⟨k2, hm, by simpa using hp⟩
  · rintro ⟨k2, hm, hp⟩
    exact ⟨k2, ⟨List.mem_map_of_mem Prod.fst hm, by simpa using hp⟩, hm⟩

theorem search_records_on_of_open (s : TableState) (ts : TrieSys)
    (attr value fn : String) (entries : List (String × Nat)) (ts' : TrieSys)
    (hfn : fn = "get" ∨ fn = "prefixes" ∨ fn = "keys")
    (hopen : open_trie_on ts attr = .ok (entries, ts')) :
    search_records_on s ts attr value fn =
      (match ((if fn = "get" then trieGet entries value
          else if fn = "prefixes" then
            (triePrefixes entries value).flatMap (fun v => trieGet entries v)
          else
            (trieKeys entries value).flatMap
              (fun v => trieGet entries v)).dedup).mapM
          (fun pos => getRecord? s pos) with
        | none => ((.error .readError : Except SearchErr (List Record)), ts')
        | some recs => (.ok recs, ts')) := by
  unfold search_records_on
  rw [if_neg (not_not_intro hfn), hopen]

/-- Claim C2 (amended): on a trie freshly built by `create_trie_on(attr)`
with no `key_func`/`filter_func`, `search_records_on(attr, s, mode)`
returns — deduplicated, each matching record exactly once — exactly the
records at ordinals whose (nonempty) key `str(record.attr)` equals `s`
(mode `get`), is a prefix of `s` (mode `prefixes`), or begins with `s`
(mode `keys`); records whose attribute stringifies to the empty string are
never indexed and never returned. -/
theorem search_records_on_fresh_trie (s : TableState) (rs : List Record)
    (ts : TrieSys) (attr value : String)
    (hgood : goodState s rs)
    (hall : ∀ r ∈ rs, hasattrB r attr = true)
    (hfresh : lookupCache ts.cache attr = none) :
    ∃ ts1, create_trie_on rs ts attr = .ok ts1 ∧
      (∃ ords : List Nat,
        (search_records_on s ts1 attr value "get").1 =
          .ok (ords.map (fun i => rs.getD i [])) ∧ ords.Nodup ∧
        ∀ i, i ∈ ords ↔
          i < rs.length ∧ keyOf rs attr i = some value ∧ value ≠ "") ∧
      (∃ ords : List Nat,
        (search_records_on s ts1 attr value "prefixes").1 =
          .ok (ords.map (fun i => rs.getD i [])) ∧ ords.Nodup ∧
        ∀ i, i ∈ ords ↔
          i < rs.length ∧ ∃ k, keyOf rs attr i = some k ∧ k ≠ "" ∧
            k.data.isPrefixOf value.data = true) ∧
      (∃ ords : List Nat,
        (search_records_on s ts1 attr value "keys").1 =
          .ok (ords.map (fun i => rs.getD i [])) ∧ ords.Nodup ∧
        ∀ i, i ∈ ords ↔
          i < rs.length ∧ ∃ k, keyOf rs attr i = some k ∧ k ≠ "" ∧
            value.data.isPrefixOf k.data = true) := by
  have hkv := kvgenFrom_ok_of_all attr rs 0 hall
  refine ⟨⟨ts.disk.filter (fun e => e.1 ≠ attr) ++
      [(attr, specEntries attr 0 rs)],
    ts.cache ++ [(attr, specEntries attr 0 rs)]⟩, ?_, ?_, ?_, ?_⟩
  case _ =>
    unfold create_trie_on
    rw [hkv]
    unfold open_trie_on
    simp only
    rw [hfresh, lookupCache_filter_append]
  all_goals {
    have hopen : open_trie_on
        ⟨ts.disk.filter (fun e => e.1 ≠ attr) ++
            [(attr, specEntries attr 0 rs)],
          ts.cache ++ [(attr, specEntries attr 0 rs)]⟩ attr =
        .ok (specEntries attr 0 rs,
          ⟨ts.disk.filter (fun e => e.1 ≠ attr) ++
              [(attr, specEntries attr 0 rs)],
            ts.cache ++ [(attr, specEntries attr 0 rs)]⟩) := by
      unfold open_trie_on
      simp only
      rw [lookupCache_append_right ts.cache attr _ hfresh]
    first
      | ( -- mode "get"
        have hmem : ∀ i, i ∈ (trieGet (specEntries attr 0 rs) value).dedup ↔
            i < rs.length ∧ keyOf rs attr i = some value ∧ value ≠ "" := by
          intro i
          rw [List.mem_dedup, mem_trieGet, mem_specEntries attr rs value i]
        refine ⟨(trieGet (specEntries attr 0 rs) value).dedup, ?_,
          List.nodup_dedup _, hmem⟩
        rw [search_records_on_of_open s _ attr value "get" _ _
          (Or.inl rfl) hopen]
        have hif : (if ("get" : String) = "get" then
            trieGet (specEntries attr 0 rs) value
          else if ("get" : String) = "prefixes" then
            (triePrefixes (specEntries attr 0 rs) value).flatMap
              (fun v => trieGet (specEntries attr 0 rs) v)
          else
            (trieKeys (specEntries attr 0 rs) value).flatMap
              (fun v => trieGet (specEntries attr 0 rs) v)) =
            trieGet (specEntries attr 0 rs) value := by simp
        rw [hif, mapM_getRecord? hgood _
          (fun i hi => ((hmem i).mp hi).1)])
      | ( -- mode "prefixes"
        have hmem : ∀ i,
            i ∈ ((triePrefixes (specEntries attr 0 rs) value).flatMap
              (fun v => trieGet (specEntries attr 0 rs) v)).dedup ↔
            i < rs.length ∧ ∃ k, keyOf rs attr i = some k ∧ k ≠ "" ∧
              k.data.isPrefixOf value.data = true := by
          intro i
          rw [List.mem_dedup, mem_flatMap_triePrefixes]
          constructor
          · rintro ⟨k2, hm, hp⟩
            obtain ⟨hlen, hkey, hne⟩ := (mem_specEntries attr rs k2 i).mp hm
            exact ⟨hlen, k2, hkey, hne, hp⟩
          · rintro ⟨hlen, k2, hkey, hne, hp⟩
            exact ⟨k2, (mem_specEntries attr rs k2 i).mpr ⟨hlen, hkey, hne⟩, hp⟩
        refine ⟨((triePrefixes (specEntries attr 0 rs) value).flatMap
          (fun v => trieGet (specEntries attr 0 rs) v)).dedup, ?_,
          List.nodup_dedup _, hmem⟩
        rw [search_records_on_of_open s _ attr value "prefixes" _ _
          (Or.inr (Or.inl rfl)) hopen]
        have hif : (if ("prefixes" : String) = "get" then
            trieGet (specEntries attr 0 rs) value
          else if ("prefixes" : String) = "prefixes" then
            (triePrefixes (specEntries attr 0 rs) value).flatMap
              (fun v => trieGet (specEntries attr 0 rs) v)
          else
            (trieKeys (specEntries attr 0 rs) value).flatMap
              (fun v => trieGet (specEntries attr 0 rs) v)) =
            (triePrefixes (specEntries attr 0 rs) value).flatMap
              (fun v => trieGet (specEntries attr 0 rs) v) := by simp
        rw [hif, mapM_getRecord? hgood _
          (fun i hi => ((hmem i).mp hi).1)])
      | ( -- mode "keys"
        have hmem : ∀ i,
            i ∈ ((trieKeys (specEntries attr 0 rs) value).flatMap
              (fun v => trieGet (specEntries attr 0 rs) v)).dedup ↔
            i < rs.length ∧ ∃ k, keyOf rs attr i = some k ∧ k ≠ "" ∧
              value.data.isPrefixOf k.data = true := by
          intro i
          rw [List.mem_dedup, mem_flatMap_trieKeys]
          constructor
          · rintro ⟨k2, hm, hp⟩
            obtain ⟨hlen, hkey, hne⟩ := (mem_specEntries attr rs k2 i).mp hm
            exact ⟨hlen, k2, hkey, hne, hp⟩
          · rintro ⟨hlen, k2, hkey, hne, hp⟩
            exact ⟨k2, (mem_specEntries attr rs k2 i).mpr ⟨hlen, hkey, hne⟩, hp⟩
        refine ⟨((trieKeys (specEntries attr 0 rs) value).flatMap
          (fun v => trieGet (specEntries attr 0 rs) v)).dedup, ?_,
          List.nodup_dedup _, hmem⟩
        rw [search_records_on_of_open s _ attr value "keys" _ _
          (Or.inr (Or.inr rfl)) hopen]
        have hif : (if ("keys" : String) = "get" then
            trieGet (specEntries attr 0 rs) value
          else if ("keys" : String) = "prefixes" then
            (triePrefixes (specEntries attr 0 rs) value).flatMap
              (fun v => trieGet (specEntries attr 0 rs) v)
          else
            (trieKeys (specEntries attr 0 rs) value).flatMap
              (fun v => trieGet (specEntries attr 0 rs) v)) =
            (trieKeys (specEntries attr 0 rs) value).flatMap
              (fun v => trieGet (specEntries attr 0 rs) v) := by simp
        rw [hif, mapM_getRecord? hgood _
          (fun i hi => ((hmem i).mp hi).1)])
  }

/-- Witness for C2: on a table holding records with `name` values `"ab"`
and `"abc"`, a `keys` search for `"ab"` on a freshly built trie returns
both records. -/
theorem search_records_on_fresh_trie_witness :
    ∃ ts1, create_trie_on [demoRecA, demoRecB] ⟨[], []⟩ "name" = .ok ts1 ∧
      ∃ ords : List Nat,
        (search_records_on demoTrieState ts1 "name" "ab" "keys").1 =
          .ok (ords.map (fun i => [demoRecA, demoRecB].getD i [])) ∧
        0 ∈ ords ∧ 1 ∈ ords := by
  have hgood : goodState demoTrieState [demoRecA, demoRecB] := by
    constructor
    · rfl
    · intro k
      by_cases hk : k = 0
      · subst hk
        simp [demoTrieState, writePage]
      · have h2 : ([demoRecA, demoRecB] : List Record).drop
            (k * PAGE_SIZE) = [] := by
          apply List.drop_eq_nil_of_le
          simp only [PAGE_SIZE, List.length_cons, List.length_nil]
          omega
        simp [demoTrieState, writePage, hk, h2]
  obtain ⟨ts1, hcreate, -, -, hkeys⟩ := search_records_on_fresh_trie
    demoTrieState [demoRecA, demoRecB] ⟨[], []⟩ "name" "ab" hgood
    (by decide) (by decide)
  obtain ⟨ords, hres, -, hmem⟩ := hkeys
  refine ⟨ts1, hcreate, ords, hres, ?_, ?_⟩
  · exact (hmem 0).mpr ⟨by decide, "ab", by decide, by decide, by decide⟩
  · exact (hmem 1).mpr ⟨by decide, "abc", by decide, by decide, by decide⟩

/-- Counterexample for C2 as stated: a record whose attribute stringifies
to the empty string satisfies `str(records[0].a) == ""`, yet a `get`
search for `""` returns nothing — empty keys are never indexed. -/
theorem search_empty_key_counterexample :
    ∃ ts1, create_trie_on [demoEmptyRec] ⟨[], []⟩ "a" = .ok ts1 ∧
      keyOf [demoEmptyRec] "a" 0 = some "" ∧
      (search_records_on demoEmptyState ts1 "a" "" "get").1 = .ok [] := by
  refine ⟨_, rfl, rfl, rfl⟩

/-- Claim C9: `search_records_on` rejects every `funcname` outside
`get`/`prefixes`/`keys` with the invalid-argument `ValueError` before
consulting any index (for every index state); with a valid mode it raises
`NoIndexError` whenever the `{attr}.trie` file is absent (given the
subsystem invariant that cached tries have backing files) — in particular
for every search performed after `delete_trie_on(attr)`. -/
theorem search_records_on_errors (s : TableState) (ts : TrieSys)
    (attr value funcname : String) :
    (¬ (funcname = "get" ∨ funcname = "prefixes" ∨ funcname = "keys") →
      (search_records_on s ts attr value funcname).1 = .error .invalidArg) ∧
    ((funcname = "get" ∨ funcname = "prefixes" ∨ funcname = "keys") →
      (∀ a, lookupCache ts.disk a = none → lookupCache ts.cache a = none) →
      lookupCache ts.disk attr = none →
      (search_records_on s ts attr value funcname).1 = .error .noIndex) ∧
    ((funcname = "get" ∨ funcname = "prefixes" ∨ funcname = "keys") →
      (search_records_on s (delete_trie_on ts attr) attr value funcname).1 =
        .error .noIndex) := by
  refine ⟨?_, ?_, ?_⟩
  · intro h
    unfold search_records_on
    rw [if_pos h]
  · intro hfn hsub hdisk
    have hopen : open_trie_on ts attr = .error .noIndex := by
      unfold open_trie_on
      rw [hsub attr hdisk, hdisk]
    unfold search_records_on
    rw [if_neg (not_not_intro hfn), hopen]
  · intro hfn
    have hopen : open_trie_on (delete_trie_on ts attr) attr =
        .error .noIndex := by
      unfold open_trie_on delete_trie_on
      simp only
      rw [lookupCache_filter_self, lookupCache_filter_self]
    unfold search_records_on
    rw [if_neg (not_not_intro hfn), hopen]

/-- Witness for C9: an unknown mode is rejected even though an index
exists, and a search right after `delete_trie_on` raises `NoIndexError`. -/
theorem search_records_on_errors_witness :
    (search_records_on initialState ⟨[("name", [("ab", 0)])], []⟩ "name" "x"
      "bogus").1 = .error .invalidArg ∧
    (search_records_on initialState
      (delete_trie_on ⟨[("name", [("ab", 0)])], []⟩ "name") "name" "ab"
      "get").1 = .error .noIndex := by
  constructor
  · exact (search_records_on_errors initialState
      ⟨[("name", [("ab", 0)])], []⟩ "name" "x" "bogus").1 (by decide)
  · exact (search_records_on_errors initialState
      ⟨[("name", [("ab", 0)])], []⟩ "name" "ab" "get").2.2 (by decide)

/-- Claim C10: `create_trie_on(attr)` fails with the "no such attribute"
`ValueError` iff the table is nonempty and record 0 lacks `attr` (a later
record lacking it raises a different error); on an empty table it succeeds
for every attribute name, persists an empty `{attr}.trie` file, and a
subsequent search opens that empty index and returns no records. -/
theorem create_trie_on_attr_check (rs : List Record) (ts : TrieSys)
    (attr : String) :
    (create_trie_on rs ts attr = .error .noSuchAttribute ↔
      rs ≠ [] ∧ ¬ hasattrB (rs.headD []) attr = true) ∧
    (rs = [] → lookupCache ts.cache attr = none →
      ∃ ts1, create_trie_on rs ts attr = .ok ts1 ∧
        lookupCache ts1.disk attr = some [] ∧
        ∀ s value, (search_records_on s ts1 attr value "get").1 = .ok []) := by
  have herr : ∀ e, create_trie_on rs ts attr = .error e ↔
      kvgenFrom attr 0 rs = .error e := by
    intro e
    unfold create_trie_on
    split
    · next e2 heq =>
      rw [heq]
      simp
    · next entries heq =>
      rw [heq]
      refine iff_of_false ?_ (by simp)
      show ¬ (match open_trie_on
          { ts with disk := ts.disk.filter (fun x => x.1 ≠ attr) ++
              [(attr, entries)] } attr with
        | Except.ok tr => Except.ok tr.2
        | Except.error _ => Except.ok
            { ts with disk := ts.disk.filter (fun x => x.1 ≠ attr) ++
                [(attr, entries)] }) = Except.error e
      split
      · next tr heq2 => simp
      · next heq2 => simp
  constructor
  · rw [herr]
    cases rs with
    | nil =>
      constructor
      · intro h
        simp [kvgenFrom] at h
      · rintro ⟨h, -⟩
        exact absurd rfl h
    | cons r rest =>
      rw [show kvgenFrom attr 0 (r :: rest) =
        (if 0 = 0 ∧ ¬ hasattrB r attr then .error .noSuchAttribute
         else
          match lookupField r attr with
          | none => .error .attributeError
          | some v =>
            match kvgenFrom attr 1 rest with
            | .error e => .error e
            | .ok tl => .ok (if strOf v ≠ "" then (strOf v, 0) :: tl else tl))
        from rfl]
      cases hh : hasattrB r attr with
      | false =>
        rw [if_pos (by simp [hh])]
        simp [hh]
      | true =>
        rw [if_neg (by simp [hh])]
        have hhs := hh
        unfold hasattrB at hhs
        obtain ⟨v, hv⟩ := Option.isSome_iff_exists.mp hhs
        rw [hv]
        constructor
        · intro hcon
          exfalso
          cases hrec : kvgenFrom attr 1 rest with
          | error e =>
            rw [hrec] at hcon
            have hne := kvgenFrom_ne_noSuchAttribute attr rest 1 (by omega)
            rw [hrec] at hne
            simp only at hcon
            exact hne (by rw [hcon])
          | ok tl =>
            rw [hrec] at hcon
            by_cases hs : strOf v ≠ "" <;> simp [hs] at hcon
        · rintro ⟨-, hna⟩
          exact absurd hh hna
  · intro hnil hfresh
    subst hnil
    refine ⟨⟨ts.disk.filter (fun e => e.1 ≠ attr) ++ [(attr, [])],
      ts.cache ++ [(attr, [])]⟩, ?_, ?_, ?_⟩
    · unfold create_trie_on
      rw [show kvgenFrom attr 0 [] = .ok [] from rfl]
      unfold open_trie_on
      simp only
      rw [hfresh, lookupCache_filter_append]
    · exact lookupCache_filter_append ts.disk attr []
    · intro s value
      have hopen : open_trie_on
          ⟨ts.disk.filter (fun e => e.1 ≠ attr) ++ [(attr, [])],
            ts.cache ++ [(attr, [])]⟩ attr =
          .ok ([], ⟨ts.disk.filter (fun e => e.1 ≠ attr) ++ [(attr, [])],
            ts.cache ++ [(attr, [])]⟩) := by
        unfold open_trie_on
        simp only
        rw [lookupCache_append_right ts.cache attr _ hfresh]
      rw [search_records_on_of_open s _ attr value "get" _ _
        (Or.inl rfl) hopen]
      rfl

/-- Witness for C10: `create_trie_on` on a nonempty table whose first
record lacks the attribute fails with the attribute error; on an empty
table it succeeds for an arbitrary name and the resulting empty index is
searchable. -/
theorem create_trie_on_attr_check_witness :
    create_trie_on [demoRec 1] ⟨[], []⟩ "zzz" = .error .noSuchAttribute ∧
    ∃ ts1, create_trie_on ([] : List Record) ⟨[], []⟩ "anything" = .ok ts1 ∧
      lookupCache ts1.disk "anything" = some [] ∧
      (search_records_on initialState ts1 "anything" "x" "get").1 = .ok [] := by
  constructor
  · exact (create_trie_on_attr_check [demoRec 1] ⟨[], []⟩ "zzz").1.mpr
      ⟨by decide, by decide⟩
  · obtain ⟨ts1, h1, h2, h3⟩ := (create_trie_on_attr_check
      ([] : List Record) ⟨[], []⟩ "anything").2 rfl (by decide)
    exact ⟨ts1, h1, h2, h3 initialState "x"⟩

/-- Claim C7 (amended): `create(capnp_schema, record_type)` never preserves
an existing non-empty table directory — `shutil.rmtree` deletes it with all
its contents unconditionally, and the recreated directory holds exactly the
copied schema file (user schema plus the synthesized `{record_type}List`
struct) and a descriptor with count 0. -/
theorem create_overwrites (dir : Option (List (String × FileData)))
    (tablename recordType schema : String) :
    createTable dir tablename recordType schema =
      [(tablename ++ ".capnp", .textFile (synthSchema schema recordType)),
       ("config.json", .configFile 0)] ∧
    ∀ name fd, (name, fd) ∈ createTable dir tablename recordType schema →
      name = tablename ++ ".capnp" ∨ name = "config.json" := by
  have h : createTable dir tablename recordType schema =
      [(tablename ++ ".capnp", .textFile (synthSchema schema recordType)),
       ("config.json", .configFile 0)] := by
    unfold createTable
    cases dir <;> rfl
  refine ⟨h, ?_⟩
  intro name fd hm
  rw [h] at hm
  rcases List.mem_cons.mp hm with he | hm2
  · exact Or.inl (congrArg Prod.fst he)
  · rcases List.mem_cons.mp hm2 with he | hm3
    · exact Or.inr (congrArg Prod.fst he)
    · cases hm3

/-- Witness for C7 (amended claim): creating over a directory that already
contains a page file succeeds and yields exactly the schema file and the
count-0 descriptor. -/
theorem create_overwrites_witness :
    createTable (some [("page_000.bin", FileData.pageFile [demoRec 1])])
      "tbl" "Rec" "s" =
      [("tbl" ++ ".capnp", FileData.textFile (synthSchema "s" "Rec")),
       ("config.json", FileData.configFile 0)] ∧
    ("config.json" = "tbl" ++ ".capnp" ∨ "config.json" = "config.json") := by
  have h := create_overwrites
    (some [("page_000.bin", FileData.pageFile [demoRec 1])]) "tbl" "Rec" "s"
  exact ⟨h.1, h.2 "config.json" (FileData.configFile 0) (by decide)⟩

/-- Counterexample for C7 as stated: `create` on a table directory that
exists and is non-empty completes (it does not fail) and the prior
contents are destroyed rather than left intact. -/
theorem create_nonempty_dir_counterexample :
    createTable (some [("page_000.bin", FileData.pageFile [demoRec 1])])
      "tbl" "Rec" "s" =
      [("tbl" ++ ".capnp", FileData.textFile (synthSchema "s" "Rec")),
       ("config.json", FileData.configFile 0)] ∧
    ("page_000.bin", FileData.pageFile [demoRec 1]) ∉
      createTable (some [("page_000.bin", FileData.pageFile [demoRec 1])])
        "tbl" "Rec" "s" := by
  refine ⟨rfl, ?_⟩
  decide

/-- Claim C8 (code evidence): `load_schema` as written in the source calls
the compiler once and propagates the missing-identifier failure without
rewriting the schema file, whereas on the same input the spec-modelled
registry (`load_schema_spec`) prepends the suggested identifier token and
succeeds on its single retry. -/
theorem load_schema_no_retry :
    load_schema demoCompile demoSchema =
      (demoSchema, .error (.noFileId "@0xbf5147cbbecf40c1;")) ∧
    load_schema_spec demoCompile demoSchema =
      ("@0xbf5147cbbecf40c1;" ++ "\n" ++ demoSchema,
        .ok ("@0xbf5147cbbecf40c1;" ++ "\n" ++ demoSchema)) := by
  constructor
  · rfl
  · rfl

end PortableTab
